import Mathlib

/-!
Shallow embedding of the RisingWave global barrier manager
(src/meta/src/barrier/mod.rs) and proofs about its checkpoint control
state machine.  Rust `HashSet` is modelled as `Finset`, `VecDeque` as a
`List` whose head is the front of the deque, and functions that can hit a
Rust `assert!`/`expect`/`unreachable!` are modelled as `Option`-returning
functions (`none` means the assertion fires).  Prometheus timers and
metrics are pure instrumentation and are not modelled.
-/

namespace RisingWave

abbrev TableId := Nat
abbrev ActorId := Nat
abbrev WorkerId := Nat
abbrev HummockSstableId := Nat

/-- Epochs are 64-bit logical timestamps; we model them as `Nat`. -/
abbrev EpochT := Nat

def INVALID_EPOCH : EpochT := 0

/-- Modelled from the spec: `risingwave_common::util::epoch::Epoch::next` is absent
from the corpus; per spec section 3 an epoch is a monotonically increasing logical
timestamp and `new_epoch = prev_epoch.next()` is strictly larger. -/
def EpochT.next (e : EpochT) : EpochT := e + 1

/-- `CommandChanges` of mod.rs: the add/remove summary of a command. -/
inductive CommandChanges where
  | DropTable (table : TableId)
  | CreateTable (table : TableId)
  | Actor (to_add : Finset ActorId) (to_remove : Finset ActorId)
  | None
deriving DecidableEq

/-- Modelled from the spec: command.rs is absent from the corpus.  A `Command` is a
sum type (Plain / CreateStreamingJob / DropStreamingJobs / ...); the barrier module
consumes only three views of it, which we record as fields: whether the variant is
`Plain`, the `changes()` summary, and `should_pause_inject_barrier()`. -/
structure Command where
  plain : Bool
  changes : CommandChanges
  should_pause_inject_barrier : Bool
deriving DecidableEq

/-- Modelled from the spec: notifier.rs is absent from the corpus.  A `Notifier` is a
set of one-shot completion channels ("injected", "collected without checkpoint",
"collected with checkpoint", "finished"); each channel is an optional identifier. -/
structure Notifier where
  to_send : Option Nat := none
  collected_no_checkpoint : Option Nat := none
  collected_checkpoint : Option Nat := none
  finished : Option Nat := none
deriving DecidableEq

structure SstableInfo where
  id : HummockSstableId
deriving DecidableEq

structure GroupedSstableInfo where
  compaction_group_id : Nat
  sst : Option SstableInfo
deriving DecidableEq

/-- The fields of `BarrierCompleteResponse` read by the barrier module; the
backfill progress entries are opaque to this development. -/
structure BarrierCompleteResponse where
  checkpoint : Bool
  worker_id : WorkerId
  synced_sstables : List GroupedSstableInfo
  create_mview_progress : List Nat
deriving DecidableEq

/-- Modelled from the spec: `CommandContext` lives in the absent command.rs; per spec
section 3 it carries the resolved actor info, the `(prev, curr)` epoch pair, the
`Command` and whether this barrier is a checkpoint.  We keep the fields that the
barrier module reads. -/
structure CommandContext where
  prev_epoch : EpochT
  curr_epoch : EpochT
  command : Command
  checkpoint : Bool
deriving DecidableEq

/-- `BarrierEpochState` of mod.rs. -/
inductive BarrierEpochState where
  | InFlight
  | Completed (resps : List BarrierCompleteResponse) (checkpoint : Bool)
deriving DecidableEq

def BarrierEpochState.isCompleted : BarrierEpochState → Bool
  | BarrierEpochState.Completed _ _ => true
  | BarrierEpochState.InFlight => false

def BarrierEpochState.isInFlight : BarrierEpochState → Bool
  | BarrierEpochState.InFlight => true
  | BarrierEpochState.Completed _ _ => false

/-- `EpochNode` of mod.rs (latency timers are instrumentation and not modelled). -/
structure EpochNode where
  state : BarrierEpochState
  command_ctx : CommandContext
  notifiers : List Notifier
deriving DecidableEq

/-- `CheckpointPost` of mod.rs. -/
structure CheckpointPost where
  command_contexts : CommandContext
  collect_notifiers_checkpoint : List (Option Nat)
  finish_notifiers : List Notifier
deriving DecidableEq

/-- `UncommittedMessages` of mod.rs; the deque is a list whose head is the front,
the `HashMap` of work ids is an association list. -/
structure UncommittedMessages where
  uncommitted_checkpoint_post : List CheckpointPost
  uncommitted_ssts : List (Nat × SstableInfo)
  uncommitted_work_ids : List (HummockSstableId × WorkerId)
deriving DecidableEq

def UncommittedMessages.default : UncommittedMessages :=
  { uncommitted_checkpoint_post := [], uncommitted_ssts := [], uncommitted_work_ids := [] }

/-- `CheckpointControl` of mod.rs (metrics omitted). -/
structure CheckpointControl where
  command_ctx_queue : List EpochNode
  creating_tables : Finset TableId
  dropping_tables : Finset TableId
  adding_actors : Finset ActorId
  removing_actors : Finset ActorId
  uncommitted_messages : UncommittedMessages
  num_distance_checkpoint : Nat
  checkpoint_frequency : Nat
deriving DecidableEq

/-- `CheckpointControl::new`. -/
def CheckpointControl.new (checkpoint_frequency : Nat) : CheckpointControl :=
  { command_ctx_queue := []
    creating_tables := ∅
    dropping_tables := ∅
    adding_actors := ∅
    removing_actors := ∅
    uncommitted_messages := UncommittedMessages.default
    num_distance_checkpoint := checkpoint_frequency
    checkpoint_frequency := checkpoint_frequency }

/-- `CheckpointControl::try_get_checkpoint`: decide whether the next barrier is a
checkpoint, decrementing the countdown and resetting it when it reaches zero. -/
def CheckpointControl.try_get_checkpoint (cc : CheckpointControl) :
    Bool × CheckpointControl :=
  if cc.num_distance_checkpoint = 0 then
    (true, { cc with num_distance_checkpoint := cc.checkpoint_frequency })
  else
    (false, { cc with num_distance_checkpoint := cc.num_distance_checkpoint - 1 })

/-- `CheckpointControl::inject_checkpoint_in_next_barrier`. -/
def CheckpointControl.inject_checkpoint_in_next_barrier (cc : CheckpointControl) :
    CheckpointControl :=
  { cc with num_distance_checkpoint := 0 }

/-- `HashMap::insert`: overwrite the binding for `k`. -/
def insertWorkId (m : List (HummockSstableId × WorkerId)) (k : HummockSstableId)
    (v : WorkerId) : List (HummockSstableId × WorkerId) :=
  (k, v) :: m.filter (fun p => p.1 ≠ k)

/-- The inner loop of `add_uncommitted_messages` over one response: fold every synced
sstable into the pending work ids / ssts (`expect` on a missing sst is `none`). -/
def addRespMessages (um : UncommittedMessages) (resp : BarrierCompleteResponse) :
    Option UncommittedMessages :=
  resp.synced_sstables.foldlM
    (fun acc grouped =>
      grouped.sst.map fun sst =>
        { acc with
          uncommitted_work_ids := insertWorkId acc.uncommitted_work_ids sst.id resp.worker_id
          uncommitted_ssts := acc.uncommitted_ssts ++ [(grouped.compaction_group_id, sst)] })
    um

/-- `CheckpointControl::add_uncommitted_messages`: fold the responses into the pending
uncommitted set and push the `CheckpointPost` onto the front of the deque. -/
def CheckpointControl.add_uncommitted_messages (cc : CheckpointControl)
    (resps : List BarrierCompleteResponse) (checkpoint_post : CheckpointPost) :
    Option CheckpointControl :=
  (resps.foldlM addRespMessages cc.uncommitted_messages).map fun um =>
    { cc with
      uncommitted_messages :=
        { um with
          uncommitted_checkpoint_post := checkpoint_post :: um.uncommitted_checkpoint_post } }

/-- `CheckpointControl::get_uncommitted_messages` (`take`). -/
def CheckpointControl.get_uncommitted_messages (cc : CheckpointControl) :
    UncommittedMessages × CheckpointControl :=
  (cc.uncommitted_messages, { cc with uncommitted_messages := UncommittedMessages.default })

/-- `CheckpointControl::pre_resolve`: merge `command.changes()` into
`creating_tables` / `adding_actors`; a failed `assert!` is `none`. -/
def CheckpointControl.pre_resolve (cc : CheckpointControl) (command : Command) :
    Option CheckpointControl :=
  match command.changes with
  | CommandChanges.CreateTable table =>
      if table ∈ cc.dropping_tables then none
      else if table ∈ cc.creating_tables then none
      else some { cc with creating_tables := insert table cc.creating_tables }
  | CommandChanges.Actor to_add _ =>
      if Disjoint cc.adding_actors to_add then
        some { cc with adding_actors := cc.adding_actors ∪ to_add }
      else none
  | _ => some cc

/-- `CheckpointControl::post_resolve`: merge `command.changes()` into
`dropping_tables` / `removing_actors`; a failed `assert!` is `none`. -/
def CheckpointControl.post_resolve (cc : CheckpointControl) (command : Command) :
    Option CheckpointControl :=
  match command.changes with
  | CommandChanges.DropTable table =>
      if table ∈ cc.creating_tables then none
      else if table ∈ cc.dropping_tables then none
      else some { cc with dropping_tables := insert table cc.dropping_tables }
  | CommandChanges.Actor _ to_remove =>
      if Disjoint cc.removing_actors to_remove then
        some { cc with removing_actors := cc.removing_actors ∪ to_remove }
      else none
  | _ => some cc

/-- `ActorState` of the protobuf definitions. -/
inductive ActorState where
  | Unspecified
  | Inactive
  | Running
deriving DecidableEq

/-- `CheckpointControl::can_actor_send_or_collect`; `unreachable!()` is `none`. -/
def CheckpointControl.can_actor_send_or_collect (cc : CheckpointControl)
    (s : ActorState) (table_id : TableId) (actor_id : ActorId) : Option Bool :=
  let removing :=
    decide (table_id ∈ cc.dropping_tables) || decide (actor_id ∈ cc.removing_actors)
  let adding :=
    decide (table_id ∈ cc.creating_tables) || decide (actor_id ∈ cc.adding_actors)
  match s with
  | ActorState.Inactive => some adding
  | ActorState.Running => some (!removing)
  | ActorState.Unspecified => none

/-- `CheckpointControl::inject`: push a new `InFlight` node at the back. -/
def CheckpointControl.inject (cc : CheckpointControl) (command_ctx : CommandContext)
    (notifiers : List Notifier) : CheckpointControl :=
  { cc with
    command_ctx_queue :=
      cc.command_ctx_queue ++
        [{ state := BarrierEpochState.InFlight, command_ctx := command_ctx,
           notifiers := notifiers }] }

/-- The mutation step of `CheckpointControl::complete`: find the first node whose
`prev_epoch` matches and mark it `Completed` with the conjunction of the responses'
checkpoint flags; the `assert!(matches!(node.state, InFlight))` is `none`. -/
def markComplete (prev_epoch : EpochT) (result : List BarrierCompleteResponse) :
    List EpochNode → Option (List EpochNode)
  | [] => some []
  | node :: rest =>
      if node.command_ctx.prev_epoch = prev_epoch then
        match node.state with
        | BarrierEpochState.InFlight =>
            some
              ({ node with
                  state :=
                    BarrierEpochState.Completed result
                      (result.all (fun r => r.checkpoint)) } :: rest)
        | BarrierEpochState.Completed _ _ => none
      else
        (markComplete prev_epoch result rest).map (fun q => node :: q)

/-- `CheckpointControl::complete`: mark the matching node `Completed`, then drain and
return the longest `Completed`-only prefix of the queue. -/
def CheckpointControl.complete (cc : CheckpointControl) (prev_epoch : EpochT)
    (result : List BarrierCompleteResponse) :
    Option (List EpochNode × CheckpointControl) :=
  (markComplete prev_epoch result cc.command_ctx_queue).map fun queue =>
    (queue.takeWhile (fun n => n.state.isCompleted),
     { cc with command_ctx_queue := queue.dropWhile (fun n => n.state.isCompleted) })

/-- `CheckpointControl::remove_changes`; a failed `assert!` is `none`. -/
def CheckpointControl.remove_changes (cc : CheckpointControl)
    (changes : CommandChanges) : Option CheckpointControl :=
  match changes with
  | CommandChanges.CreateTable table_id =>
      if table_id ∈ cc.creating_tables then
        some { cc with creating_tables := cc.creating_tables.erase table_id }
      else none
  | CommandChanges.DropTable table_id =>
      if table_id ∈ cc.dropping_tables then
        some { cc with dropping_tables := cc.dropping_tables.erase table_id }
      else none
  | CommandChanges.Actor to_add to_remove =>
      if to_add ⊆ cc.adding_actors ∧ to_remove ⊆ cc.removing_actors then
        some
          { cc with
            adding_actors := cc.adding_actors \ to_add
            removing_actors := cc.removing_actors \ to_remove }
      else none
  | CommandChanges.None => some cc

/-- The rollback loop of `CheckpointControl::fail`: remove every drained node's
changes, front to back. -/
def removeChangesAll (cc : CheckpointControl) :
    List EpochNode → Option CheckpointControl
  | [] => some cc
  | node :: rest =>
      (cc.remove_changes node.command_ctx.command.changes).bind
        (fun cc2 => removeChangesAll cc2 rest)

/-- `CheckpointControl::fail`: drain the entire queue and roll back every drained
command's changes. -/
def CheckpointControl.fail (cc : CheckpointControl) :
    Option (List EpochNode × CheckpointControl) :=
  (removeChangesAll { cc with command_ctx_queue := [] } cc.command_ctx_queue).map
    (fun cc2 => (cc.command_ctx_queue, cc2))

/-- The number of `InFlight` nodes in the queue. -/
def CheckpointControl.inFlightCount (cc : CheckpointControl) : Nat :=
  (cc.command_ctx_queue.filter (fun x => x.state.isInFlight)).length

/-- `CheckpointControl::can_inject_barrier`: fewer than `in_flight_barrier_nums`
nodes are `InFlight` and the last queued command does not pause injection. -/
def CheckpointControl.can_inject_barrier (cc : CheckpointControl)
    (in_flight_barrier_nums : Nat) : Bool :=
  let in_flight_not_full :=
    decide (cc.inFlightCount < in_flight_barrier_nums)
  let should_pause :=
    (cc.command_ctx_queue.getLast?.map
      (fun x => x.command_ctx.command.should_pause_inject_barrier)).getD false
  in_flight_not_full && !should_pause

def nodePrev (n : EpochNode) : EpochT := n.command_ctx.prev_epoch

def queuePrevs (cc : CheckpointControl) : List EpochT :=
  cc.command_ctx_queue.map nodePrev

/-- The persisted barrier manager state (`BarrierManagerState` of model/barrier.rs):
the durable `in_flight_prev_epoch` pointer. -/
structure BarrierManagerState where
  in_flight_prev_epoch : EpochT
deriving DecidableEq

/-- Externally visible events of the injection path of `GlobalBarrierManager::run`:
persisting the `prev_epoch` pointer to the meta store, and sending the inject RPC
for a barrier. -/
inductive RunEvent where
  | persist (e : EpochT)
  | inject_rpc (prev : EpochT) (curr : EpochT) (checkpoint : Bool)
deriving DecidableEq

structure InjectOutcome where
  state : BarrierManagerState
  cc : CheckpointControl
  checkpoint : Bool
  events : List RunEvent
deriving DecidableEq

/-- The injection path of one iteration of `GlobalBarrierManager::run` (mod.rs lines
681-713): allocate `new_epoch = prev_epoch.next()`, persist the new pointer, force a
checkpoint for non-`Plain` commands, ask the cadence policy, build the
`CommandContext`, register the node `InFlight`, and send the inject RPC. -/
def runInjectStep (state : BarrierManagerState) (cc : CheckpointControl)
    (command : Command) (notifiers : List Notifier) : InjectOutcome :=
  let prev_epoch := state.in_flight_prev_epoch
  let new_epoch := EpochT.next prev_epoch
  let cc1 :=
    if !command.plain then cc.inject_checkpoint_in_next_barrier else cc
  let p := cc1.try_get_checkpoint
  let command_ctx : CommandContext :=
    { prev_epoch := prev_epoch, curr_epoch := new_epoch, command := command,
      checkpoint := p.1 }
  { state := { in_flight_prev_epoch := new_epoch }
    cc := (p.2).inject command_ctx notifiers
    checkpoint := p.1
    events :=
      [RunEvent.persist new_epoch, RunEvent.inject_rpc prev_epoch new_epoch p.1] }

/-- Modelled from the spec: recovery.rs is absent from the corpus.  Per spec
sections 4.7 and 8, Recovery resets in-flight state, allocates a fresh epoch above
the persisted pointer, and persists the new `prev_epoch` pointer before resuming. -/
def recoveryStep (state : BarrierManagerState) : BarrierManagerState × List RunEvent :=
  let new_epoch := EpochT.next state.in_flight_prev_epoch
  ({ in_flight_prev_epoch := new_epoch }, [RunEvent.persist new_epoch])

/-- One scheduling decision of the orchestrator loop, for the epoch-allocation
trace: inject a barrier for a popped command, or run Recovery. -/
inductive EpochStep where
  | inject (command : Command) (notifiers : List Notifier)
  | recover
deriving DecidableEq

/-- Fold a list of scheduling decisions through the orchestrator loop, emitting the
trace of persist / inject-RPC events. -/
def runSteps (state : BarrierManagerState) (cc : CheckpointControl) :
    List EpochStep → BarrierManagerState × CheckpointControl × List RunEvent
  | [] => (state, cc, [])
  | EpochStep.inject command notifiers :: rest =>
      let o := runInjectStep state cc command notifiers
      let r := runSteps o.state o.cc rest
      (r.1, r.2.1, o.events ++ r.2.2)
  | EpochStep.recover :: rest =>
      let p := recoveryStep state
      let r := runSteps p.1 (CheckpointControl.new cc.checkpoint_frequency) rest
      (r.1, r.2.1, p.2 ++ r.2.2)

/-- The `curr` epochs of the inject-RPC events of a trace, in order. -/
def injectCurrs (tr : List RunEvent) : List EpochT :=
  tr.filterMap fun e =>
    match e with
    | RunEvent.inject_rpc _ curr _ => some curr
    | RunEvent.persist _ => none

/-- Iterate `try_get_checkpoint`, returning the sequence of cadence decisions for
`k` consecutive barriers. -/
def checkpointSeq (cc : CheckpointControl) : Nat → List Bool
  | 0 => []
  | k + 1 =>
      let p := cc.try_get_checkpoint
      p.1 :: checkpointSeq p.2 k

/-- Notifier firings observable during the checkpoint-time drain of the staged
`CheckpointPost`s (mod.rs lines 976-995). -/
inductive FireEvent where
  | collected_checkpoint (ch : Nat)
  | finished (ch : Nat)
deriving DecidableEq

/-- The notifier firings for one `CheckpointPost`: first every saved
collected-with-checkpoint sender, then every finish notifier. -/
def postFireEvents (post : CheckpointPost) : List FireEvent :=
  (post.collect_notifiers_checkpoint.filterMap id).map FireEvent.collected_checkpoint
    ++ (post.finish_notifiers.filterMap (fun n => n.finished)).map FireEvent.finished

/-- The checkpoint-time drain loop: `pop_back` until the deque is empty, so the
deque (front first) is processed back to front. -/
def drainCheckpointPosts (deque : List CheckpointPost) : List FireEvent :=
  deque.reverse.flatMap postFireEvents

/-- The state of the commit pipeline observed by the storage engine: the checkpoint
control, the persisted manager state, and the epochs passed to `commit_epoch`, in
call order. -/
structure SysState where
  cc : CheckpointControl
  state : BarrierManagerState
  committed : List EpochT

/-- The `commit_epoch` calls issued when finalizing one drained node
(`GlobalBarrierManager::complete_barriers`): a checkpoint node with a valid epoch
commits its `prev_epoch`; other nodes only bump the current-epoch pointer. -/
def commitsOfNode (node : EpochNode) : List EpochT :=
  match node.state with
  | BarrierEpochState.Completed _ checkpoint =>
      if checkpoint = true ∧ node.command_ctx.prev_epoch ≠ INVALID_EPOCH then
        [node.command_ctx.prev_epoch]
      else []
  | BarrierEpochState.InFlight => []

def commitsOfDrained (nodes : List EpochNode) : List EpochT :=
  nodes.flatMap commitsOfNode

/-- The public transitions of the orchestrator loop on `SysState`.  `inject` is
guarded by `can_inject_barrier` and performs actor-info resolution
(`pre_resolve` / `post_resolve`) before `runInjectStep`; `complete_ok` is a fully
successful `barrier_complete_and_commit`; `complete_err` is one that fails while
finalizing the drained prefix (the first `k` nodes were finalized, the rest and
the whole remaining queue fail together); `fail_step` is a failed collection. -/
inductive Step (in_flight_barrier_nums : Nat) : SysState → SysState → Prop
  | inject (s : SysState) (command : Command) (notifiers : List Notifier)
      (cc1 cc2 : CheckpointControl)
      (hguard : s.cc.can_inject_barrier in_flight_barrier_nums = true)
      (hpre : s.cc.pre_resolve command = some cc1)
      (hpost : cc1.post_resolve command = some cc2) :
      Step in_flight_barrier_nums s
        { cc := (runInjectStep s.state cc2 command notifiers).cc
          state := (runInjectStep s.state cc2 command notifiers).state
          committed := s.committed }
  | complete_ok (s : SysState) (prev_epoch : EpochT)
      (resps : List BarrierCompleteResponse) (drained : List EpochNode)
      (cc2 : CheckpointControl)
      (hc : s.cc.complete prev_epoch resps = some (drained, cc2)) :
      Step in_flight_barrier_nums s
        { cc := cc2, state := s.state
          committed := s.committed ++ commitsOfDrained drained }
  | complete_err (s : SysState) (prev_epoch : EpochT)
      (resps : List BarrierCompleteResponse) (drained : List EpochNode)
      (cc2 : CheckpointControl) (k : Nat) (failRest : List EpochNode)
      (cc3 : CheckpointControl)
      (hc : s.cc.complete prev_epoch resps = some (drained, cc2))
      (hk : k ≤ drained.length)
      (hfail : cc2.fail = some (failRest, cc3)) :
      Step in_flight_barrier_nums s
        { cc := cc3, state := s.state
          committed := s.committed ++ commitsOfDrained (drained.take k) }
  | fail_step (s : SysState) (failRest : List EpochNode) (cc2 : CheckpointControl)
      (hfail : s.cc.fail = some (failRest, cc2)) :
      Step in_flight_barrier_nums s { cc := cc2, state := s.state, committed := s.committed }

/-- The initial state of the loop: a fresh `CheckpointControl`, an arbitrary
persisted epoch pointer, and no commits yet. -/
def initSysState (checkpoint_frequency : Nat) (prev0 : EpochT) : SysState :=
  { cc := CheckpointControl.new checkpoint_frequency
    state := { in_flight_prev_epoch := prev0 }
    committed := [] }

/-- States reachable through the public API of the orchestrator loop. -/
inductive Reachable (in_flight_barrier_nums : Nat) : SysState → Prop
  | init (checkpoint_frequency : Nat) (prev0 : EpochT) :
      Reachable in_flight_barrier_nums (initSysState checkpoint_frequency prev0)
  | step (s s2 : SysState) (h : Reachable in_flight_barrier_nums s)
      (hs : Step in_flight_barrier_nums s s2) : Reachable in_flight_barrier_nums s2

/-- The four in-flight adjustment sets of a `CheckpointControl`. -/
def setsOf (cc : CheckpointControl) :
    Finset TableId × Finset TableId × Finset ActorId × Finset ActorId :=
  (cc.creating_tables, cc.dropping_tables, cc.adding_actors, cc.removing_actors)

/-- One full attempt at a command in the orchestrator loop: resolve actor info
(`pre_resolve`, then `post_resolve`) and inject the barrier. -/
def attemptCommand (st : BarrierManagerState) (cc : CheckpointControl)
    (command : Command) (notifiers : List Notifier) :
    Option (BarrierManagerState × CheckpointControl) :=
  (cc.pre_resolve command).bind fun cc1 =>
    (cc1.post_resolve command).map fun cc2 =>
      let o := runInjectStep st cc2 command notifiers
      (o.state, o.cc)

/-- Attempt a list of scheduled commands in order. -/
def attemptAll (st : BarrierManagerState) (cc : CheckpointControl) :
    List (Command × List Notifier) → Option (BarrierManagerState × CheckpointControl)
  | [] => some (st, cc)
  | (c, nfs) :: rest =>
      (attemptCommand st cc c nfs).bind fun p => attemptAll p.1 p.2 rest

/-- Tables registered into `creating_tables` by a command. -/
def createdOf (c : Command) : Finset TableId :=
  match c.changes with
  | CommandChanges.CreateTable t => {t}
  | _ => ∅

/-- Tables registered into `dropping_tables` by a command. -/
def droppedOf (c : Command) : Finset TableId :=
  match c.changes with
  | CommandChanges.DropTable t => {t}
  | _ => ∅

/-- Actors registered into `adding_actors` by a command. -/
def addedOf (c : Command) : Finset ActorId :=
  match c.changes with
  | CommandChanges.Actor to_add _ => to_add
  | _ => ∅

/-- Actors registered into `removing_actors` by a command. -/
def removedOf (c : Command) : Finset ActorId :=
  match c.changes with
  | CommandChanges.Actor _ to_remove => to_remove
  | _ => ∅

/-- A default `Plain` command (the periodic checkpoint command). -/
def cmdPlain : Command :=
  { plain := true, changes := CommandChanges.None, should_pause_inject_barrier := false }

/-- A structural command creating table 42. -/
def cmdCreate42 : Command :=
  { plain := false, changes := CommandChanges.CreateTable 42,
    should_pause_inject_barrier := false }

/-- A checkpoint control mid-cadence, two barriers away from a checkpoint. -/
def ccDistance2 : CheckpointControl :=
  { CheckpointControl.new 5 with num_distance_checkpoint := 2 }

/- ================= helper lemmas ================= -/

theorem mod_succ_eq_iff (i N : Nat) : i % (N + 1) = N ↔ (i + 1) % (N + 1) = 0 := by
  constructor
  · intro h
    have h2 := Nat.div_add_mod i (N + 1)
    have h4 : i + 1 = (N + 1) * (i / (N + 1)) + (N + 1) := by omega
    rw [h4, Nat.add_comm, Nat.add_mul_mod_self_left]
    exact Nat.mod_self _
  · intro h
    have h1 : 0 < N + 1 := Nat.succ_pos N
    have h2 := Nat.div_add_mod i (N + 1)
    have h3 : i % (N + 1) < N + 1 := Nat.mod_lt _ h1
    rcases Nat.lt_or_ge (i % (N + 1)) N with hlt | hge
    · exfalso
      have h5 : i + 1 = (N + 1) * (i / (N + 1)) + (i % (N + 1) + 1) := by omega
      have h6 : (i + 1) % (N + 1) = (i % (N + 1) + 1) % (N + 1) := by
        rw [h5, Nat.mul_add_mod]
      have h7 : (i % (N + 1) + 1) % (N + 1) = i % (N + 1) + 1 :=
        Nat.mod_eq_of_lt (by omega)
      omega
    · omega

theorem checkpointSeq_succ (cc : CheckpointControl) (k : Nat) :
    checkpointSeq cc (k + 1) =
      cc.try_get_checkpoint.1 :: checkpointSeq cc.try_get_checkpoint.2 k := rfl

theorem try_get_checkpoint_zero (cc : CheckpointControl)
    (h : cc.num_distance_checkpoint = 0) :
    cc.try_get_checkpoint =
      (true, { cc with num_distance_checkpoint := cc.checkpoint_frequency }) := by
  simp [CheckpointControl.try_get_checkpoint, h]

theorem try_get_checkpoint_pos (cc : CheckpointControl)
    (h : cc.num_distance_checkpoint ≠ 0) :
    cc.try_get_checkpoint =
      (false, { cc with num_distance_checkpoint := cc.num_distance_checkpoint - 1 }) := by
  simp [CheckpointControl.try_get_checkpoint, h]

/-- Closed form of the cadence policy: the `i`-th (0-based) decision produced by
iterating `try_get_checkpoint` is `true` exactly when
`(i + (frequency - countdown)) % (frequency + 1) = frequency`. -/
theorem checkpointSeq_get (k : Nat) :
    ∀ (cc : CheckpointControl) (i : Nat), i < k →
      cc.num_distance_checkpoint ≤ cc.checkpoint_frequency →
      (checkpointSeq cc k)[i]? =
        some (decide
          ((i + (cc.checkpoint_frequency - cc.num_distance_checkpoint)) %
            (cc.checkpoint_frequency + 1) = cc.checkpoint_frequency)) := by
  induction k with
  | zero => intro cc i hi _; exact absurd hi (Nat.not_lt_zero i)
  | succ k ih =>
    intro cc i hi hd
    rw [checkpointSeq_succ]
    by_cases h0 : cc.num_distance_checkpoint = 0
    · rw [try_get_checkpoint_zero cc h0]
      cases i with
      | zero =>
        rw [List.getElem?_cons_zero, Option.some.injEq, eq_comm, decide_eq_true_eq, h0]
        rw [Nat.sub_zero, Nat.zero_add]
        exact Nat.mod_eq_of_lt (by omega)
      | succ i =>
        rw [List.getElem?_cons_succ]
        rw [ih _ i (by omega) (by exact Nat.le_refl _)]
        congr 1
        rw [decide_eq_decide, h0]
        have harg : i + 1 + (cc.checkpoint_frequency - 0) =
            (i + (cc.checkpoint_frequency - cc.checkpoint_frequency)) +
              (cc.checkpoint_frequency + 1) := by omega
        rw [harg, Nat.add_mod_right]
    · rw [try_get_checkpoint_pos cc h0]
      cases i with
      | zero =>
        rw [List.getElem?_cons_zero, Option.some.injEq, eq_comm, decide_eq_false_iff_not]
        rw [Nat.zero_add, Nat.mod_eq_of_lt (by omega)]
        omega
      | succ i =>
        rw [List.getElem?_cons_succ]
        rw [ih _ i (by omega) (by exact Nat.le_trans (Nat.sub_le _ _) hd)]
        congr 1
        rw [decide_eq_decide]
        have harg : i + (cc.checkpoint_frequency - (cc.num_distance_checkpoint - 1)) =
            i + 1 + (cc.checkpoint_frequency - cc.num_distance_checkpoint) := by omega
        rw [harg]

/- ================= C2 ================= -/

/-- C2 counterexample: with `checkpoint_frequency = 3` and only `Plain` commands from
a fresh `CheckpointControl`, the cadence decisions for the first six barriers are
`[false, false, false, true, false, false]`: barrier 3 is NOT a checkpoint (barrier 4
is), contradicting the claim that barriers 3 and 6 are checkpoints. -/
theorem claim_C2_counterexample :
    checkpointSeq (CheckpointControl.new 3) 6 = [false, false, false, true, false, false]
    ∧ (checkpointSeq (CheckpointControl.new 3) 6)[2]? ≠ some true := by
  constructor
  · rfl
  · intro h
    rw [show checkpointSeq (CheckpointControl.new 3) 6 =
      [false, false, false, true, false, false] from rfl] at h
    simp at h

/-- C2 (amended): from a fresh `CheckpointControl` with `checkpoint_frequency = N`
and no forced checkpoints, barrier `i + 1` (1-indexed) is a checkpoint exactly when
`N + 1` divides `i + 1`: a checkpoint every `(N+1)`-th barrier (after `N` plain
barriers), not every `N`-th. -/
theorem claim_C2_theorem (N k i : Nat) (h : i < k) :
    (checkpointSeq (CheckpointControl.new N) k)[i]? =
      some (decide ((N + 1) ∣ (i + 1))) := by
  rw [checkpointSeq_get k (CheckpointControl.new N) i h (by rfl)]
  have h1 : (CheckpointControl.new N).checkpoint_frequency = N := rfl
  have h2 : (CheckpointControl.new N).num_distance_checkpoint = N := rfl
  rw [h1, h2, Option.some.injEq, decide_eq_decide, Nat.sub_self, Nat.add_zero]
  rw [mod_succ_eq_iff]
  exact (Nat.dvd_iff_mod_eq_zero).symm

/-- C2 witness: the amended cadence at `N = 3`, `i = 3` — barrier 4 is a checkpoint. -/
theorem claim_C2_witness :
    (checkpointSeq (CheckpointControl.new 3) 8)[3]? = some (decide ((3 + 1) ∣ (3 + 1))) :=
  claim_C2_theorem 3 8 3 (by omega)

/- ================= C3 ================= -/

/-- C3 counterexample: injecting a structural (non-`Plain`) command while
`num_distance_checkpoint = 2` makes the barrier CARRYING the command a checkpoint
(`checkpoint = true` for that very barrier), and the immediately following `Plain`
barrier is NOT a checkpoint — contradicting the claim that the flag becomes true
only for the next barrier after the carrier. -/
theorem claim_C3_counterexample :
    (runInjectStep { in_flight_prev_epoch := 10 } ccDistance2 cmdCreate42 []).checkpoint = true
    ∧ (runInjectStep (runInjectStep { in_flight_prev_epoch := 10 } ccDistance2 cmdCreate42 []).state
        (runInjectStep { in_flight_prev_epoch := 10 } ccDistance2 cmdCreate42 []).cc
        cmdPlain []).checkpoint = false := by
  constructor <;> rfl

/-- C3 (amended): when a non-`Plain` command is injected, the orchestrator calls
`inject_checkpoint_in_next_barrier` before asking the cadence policy for that same
barrier, so the barrier carrying the structural command itself has
`is_checkpoint = true`, and the countdown restarts at `checkpoint_frequency` for
the barriers after it. -/
theorem claim_C3_theorem (st : BarrierManagerState) (cc : CheckpointControl)
    (c : Command) (nfs : List Notifier) (h : c.plain = false) :
    (runInjectStep st cc c nfs).checkpoint = true
    ∧ (runInjectStep st cc c nfs).cc.num_distance_checkpoint = cc.checkpoint_frequency := by
  have h1 : (if !c.plain then cc.inject_checkpoint_in_next_barrier else cc)
      = cc.inject_checkpoint_in_next_barrier := by rw [h]; rfl
  have h2 := try_get_checkpoint_zero cc.inject_checkpoint_in_next_barrier rfl
  constructor
  · simp [runInjectStep, h, h2]
  · simp only [runInjectStep, h, Bool.not_false, if_true, h2, CheckpointControl.inject]
    rfl

/-- C3 witness: the amended statement at a concrete structural command. -/
theorem claim_C3_witness :
    (runInjectStep { in_flight_prev_epoch := 10 } ccDistance2 cmdCreate42 []).checkpoint = true
    ∧ (runInjectStep { in_flight_prev_epoch := 10 } ccDistance2 cmdCreate42
        []).cc.num_distance_checkpoint = ccDistance2.checkpoint_frequency :=
  claim_C3_theorem { in_flight_prev_epoch := 10 } ccDistance2 cmdCreate42 [] rfl

/- ================= C6 ================= -/

/-- C6: `can_actor_send_or_collect` lets an `Inactive` actor send/collect exactly
when its table is in `creating_tables` or its id is in `adding_actors`, lets a
`Running` actor send/collect exactly when its table is not in `dropping_tables` and
its id is not in `removing_actors`, and treats `Unspecified` as unreachable
(a fatal error, modelled as `none`). -/
theorem claim_C6 (cc : CheckpointControl) (t : TableId) (a : ActorId) :
    (cc.can_actor_send_or_collect ActorState.Inactive t a = some true ↔
      (t ∈ cc.creating_tables ∨ a ∈ cc.adding_actors))
    ∧ (cc.can_actor_send_or_collect ActorState.Running t a = some true ↔
      (t ∉ cc.dropping_tables ∧ a ∉ cc.removing_actors))
    ∧ cc.can_actor_send_or_collect ActorState.Unspecified t a = none := by
  refine ⟨?_, ?_, rfl⟩ <;>
    simp [CheckpointControl.can_actor_send_or_collect]

/-- C6 witness: the characterization at a fresh control with concrete ids. -/
theorem claim_C6_witness :
    ((CheckpointControl.new 3).can_actor_send_or_collect ActorState.Inactive 1 2 = some true ↔
      (1 ∈ (CheckpointControl.new 3).creating_tables ∨
        2 ∈ (CheckpointControl.new 3).adding_actors))
    ∧ ((CheckpointControl.new 3).can_actor_send_or_collect ActorState.Running 1 2 = some true ↔
      (1 ∉ (CheckpointControl.new 3).dropping_tables ∧
        2 ∉ (CheckpointControl.new 3).removing_actors))
    ∧ (CheckpointControl.new 3).can_actor_send_or_collect ActorState.Unspecified 1 2 = none :=
  claim_C6 (CheckpointControl.new 3) 1 2

/- ================= markComplete lemmas ================= -/

/-- The node produced by marking `a` as completed with responses `r`. -/
def markedNode (r : List BarrierCompleteResponse) (a : EpochNode) : EpochNode :=
  { a with state := BarrierEpochState.Completed r (r.all fun x => x.checkpoint) }

/-- On a queue with duplicate-free `prev_epoch`s, `markComplete` relates the old and
new queues pointwise: a node whose epoch does not match is untouched; the node whose
epoch matches was `InFlight` and is marked `Completed` with the conjunction of the
responses' checkpoint flags. -/
theorem markComplete_spec (e : EpochT) (r : List BarrierCompleteResponse) :
    ∀ (q q' : List EpochNode), (q.map nodePrev).Nodup →
      markComplete e r q = some q' →
      List.Forall₂ (fun a b =>
        (nodePrev a ≠ e → b = a) ∧
        (nodePrev a = e → a.state = BarrierEpochState.InFlight ∧ b = markedNode r a))
        q q' := by
  intro q
  induction q with
  | nil =>
      intro q' _ h
      cases h
      exact List.Forall₂.nil
  | cons node rest ih =>
      intro q' hnd h
      rw [List.map_cons, List.nodup_cons] at hnd
      by_cases hm : node.command_ctx.prev_epoch = e
      · rw [markComplete, if_pos hm] at h
        cases hstate : node.state with
        | InFlight =>
            rw [hstate] at h
            cases h
            refine List.Forall₂.cons ⟨fun hne => absurd hm hne, fun _ => ⟨hstate, rfl⟩⟩ ?_
            rw [List.forall₂_same]
            intro a ha
            refine ⟨fun _ => rfl, fun hae => ?_⟩
            have hmem := List.mem_map_of_mem nodePrev ha
            rw [hae] at hmem
            have hm2 : nodePrev node = e := hm
            rw [← hm2] at hmem
            exact absurd hmem hnd.1
        | Completed resps ck =>
            rw [hstate] at h
            cases h
      · rw [markComplete, if_neg hm] at h
        rcases Option.map_eq_some'.mp h with ⟨q2, hq2, hq'⟩
        cases hq'
        refine List.Forall₂.cons ⟨fun _ => rfl, fun hae => absurd hae hm⟩ ?_
        exact ih q2 hnd.2 hq2

/-- `markComplete` preserves the `command_ctx` of every node. -/
theorem markComplete_ctx (e : EpochT) (r : List BarrierCompleteResponse) :
    ∀ (q q' : List EpochNode), markComplete e r q = some q' →
      q'.map (fun n => n.command_ctx) = q.map (fun n => n.command_ctx) := by
  intro q
  induction q with
  | nil => intro q' h; cases h; rfl
  | cons node rest ih =>
      intro q' h
      by_cases hm : node.command_ctx.prev_epoch = e
      · rw [markComplete, if_pos hm] at h
        cases hstate : node.state with
        | InFlight => rw [hstate] at h; cases h; rfl
        | Completed resps ck => rw [hstate] at h; cases h
      · rw [markComplete, if_neg hm] at h
        rcases Option.map_eq_some'.mp h with ⟨q2, hq2, hq'⟩
        cases hq'
        rw [List.map_cons, List.map_cons, ih q2 hq2]

/-- `markComplete` preserves the list of `prev_epoch`s. -/
theorem markComplete_prevs (e : EpochT) (r : List BarrierCompleteResponse)
    (q q' : List EpochNode) (h : markComplete e r q = some q') :
    q'.map nodePrev = q.map nodePrev := by
  have h1 := markComplete_ctx e r q q' h
  have e1 : q'.map nodePrev = (q'.map (fun n => n.command_ctx)).map
      (fun c => c.prev_epoch) := by
    rw [List.map_map]; rfl
  have e2 : q.map nodePrev = (q.map (fun n => n.command_ctx)).map
      (fun c => c.prev_epoch) := by
    rw [List.map_map]; rfl
  rw [e1, e2, h1]

/-- `markComplete` does not increase the number of `InFlight` nodes. -/
theorem markComplete_inflight (e : EpochT) (r : List BarrierCompleteResponse) :
    ∀ (q q' : List EpochNode), markComplete e r q = some q' →
      (q'.filter (fun x => x.state.isInFlight)).length ≤
        (q.filter (fun x => x.state.isInFlight)).length := by
  intro q
  induction q with
  | nil => intro q' h; cases h; exact Nat.le_refl _
  | cons node rest ih =>
      intro q' h
      by_cases hm : node.command_ctx.prev_epoch = e
      · rw [markComplete, if_pos hm] at h
        cases hstate : node.state with
        | InFlight =>
            rw [hstate] at h
            cases h
            show ((markedNode r node :: rest).filter fun x => x.state.isInFlight).length ≤
              ((node :: rest).filter fun x => x.state.isInFlight).length
            have h1 : ((markedNode r node :: rest).filter fun x => x.state.isInFlight) =
                rest.filter fun x => x.state.isInFlight := by
              rw [List.filter_cons]
              simp [markedNode, BarrierEpochState.isInFlight]
            have h2 : ((node :: rest).filter fun x => x.state.isInFlight) =
                node :: rest.filter fun x => x.state.isInFlight := by
              rw [List.filter_cons]
              simp [hstate, BarrierEpochState.isInFlight]
            rw [h1, h2]
            exact Nat.le_succ _
        | Completed resps ck => rw [hstate] at h; cases h
      · rw [markComplete, if_neg hm] at h
        rcases Option.map_eq_some'.mp h with ⟨q2, hq2, hq'⟩
        cases hq'
        have := ih q2 hq2
        cases hif : node.state.isInFlight <;>
          simp [List.filter_cons, hif] <;> omega

/-- Unfolding of `CheckpointControl.complete` into `markComplete` and the
takeWhile / dropWhile split. -/
theorem complete_eq (cc : CheckpointControl) (e : EpochT)
    (r : List BarrierCompleteResponse) (drained : List EpochNode)
    (cc2 : CheckpointControl) :
    cc.complete e r = some (drained, cc2) ↔
      ∃ q, markComplete e r cc.command_ctx_queue = some q ∧
        drained = q.takeWhile (fun n => n.state.isCompleted) ∧
        cc2 = { cc with command_ctx_queue := q.dropWhile (fun n => n.state.isCompleted) } := by
  rw [CheckpointControl.complete, Option.map_eq_some']
  constructor
  · rintro ⟨q, hq, hpair⟩
    exact ⟨q, hq, congrArg Prod.fst hpair.symm, congrArg Prod.snd hpair.symm⟩
  · rintro ⟨q, hq, h1, h2⟩
    exact ⟨q, hq, by rw [← h1, ← h2]⟩

/- ================= C10 ================= -/

/-- An `InFlight` node for a barrier that was injected with `checkpoint = false`. -/
def c10node : EpochNode :=
  { state := BarrierEpochState.InFlight
    command_ctx :=
      { prev_epoch := 7, curr_epoch := 8, command := cmdPlain, checkpoint := false }
    notifiers := [] }

def c10cc : CheckpointControl :=
  { CheckpointControl.new 3 with command_ctx_queue := [c10node] }

/-- C10: when `complete` marks a node `Completed`, the recorded `is_checkpoint` flag
is the conjunction of the `checkpoint` fields of all worker responses (vacuously
`true` for an empty response list), independent of the checkpoint flag chosen at
injection time: concretely, a barrier injected with `checkpoint = false` completed
with no responses is recorded with flag `true`. -/
theorem claim_C10 :
    (∀ (cc : CheckpointControl) (e : EpochT) (r : List BarrierCompleteResponse)
        (drained : List EpochNode) (cc2 : CheckpointControl),
      (queuePrevs cc).Nodup →
      cc.complete e r = some (drained, cc2) →
      ∀ n ∈ drained ++ cc2.command_ctx_queue, nodePrev n = e →
        n.state.isCompleted = true →
        n.state = BarrierEpochState.Completed r (r.all fun x => x.checkpoint))
    ∧ ((c10cc.complete 7 []).map (fun p => p.1.map (fun n => n.state)) =
        some [BarrierEpochState.Completed [] true])
    ∧ c10node.command_ctx.checkpoint = false := by
  refine ⟨?_, rfl, rfl⟩
  intro cc e r drained cc2 hnd hc n hmem hne hcomp
  rcases (complete_eq cc e r drained cc2).mp hc with ⟨q, hq, hdr, hcc2⟩
  have hmem2 : n ∈ q := by
    rw [hdr] at hmem
    rw [hcc2] at hmem
    simp only at hmem
    rw [List.takeWhile_append_dropWhile] at hmem
    exact hmem
  have hf2 := markComplete_spec e r cc.command_ctx_queue q hnd hq
  rcases List.forall₂_iff_get.mp hf2 with ⟨hlen, hget⟩
  rcases List.mem_iff_get.mp hmem2 with ⟨⟨i, hi⟩, hgi⟩
  have hrel := hget i (by omega) hi
  rw [hgi] at hrel
  by_cases hmatch : nodePrev (cc.command_ctx_queue.get ⟨i, by omega⟩) = e
  · rcases hrel.2 hmatch with ⟨_, hmk⟩
    rw [hmk, markedNode]
  · rw [hrel.1 hmatch] at hne
    exact absurd hne hmatch

/-- The node of `c10cc` after completion with an empty response list. -/
def c10marked : EpochNode :=
  { c10node with state := BarrierEpochState.Completed [] true }

/-- C10 witness: the general part applied to the concrete one-node queue. -/
theorem claim_C10_witness :
    c10marked.state =
      BarrierEpochState.Completed []
        (([] : List BarrierCompleteResponse).all fun x => x.checkpoint) :=
  claim_C10.1 c10cc 7 [] [c10marked] { c10cc with command_ctx_queue := [] }
    (by decide) rfl c10marked (by simp) rfl rfl

/- ================= C9 ================= -/

/-- Stage a list of `(responses, post)` pairs in order through
`add_uncommitted_messages`. -/
def addAllUncommitted (cc : CheckpointControl) :
    List (List BarrierCompleteResponse × CheckpointPost) → Option CheckpointControl
  | [] => some cc
  | (r, p) :: rest =>
      (cc.add_uncommitted_messages r p).bind fun cc2 => addAllUncommitted cc2 rest

/-- The sstable-folding loop never touches the post deque. -/
theorem addRespMessages_post (resp : BarrierCompleteResponse) :
    ∀ (um um2 : UncommittedMessages), addRespMessages um resp = some um2 →
      um2.uncommitted_checkpoint_post = um.uncommitted_checkpoint_post := by
  have key : ∀ (l : List GroupedSstableInfo) (um um2 : UncommittedMessages),
      l.foldlM
        (fun acc grouped =>
          grouped.sst.map fun sst =>
            { acc with
              uncommitted_work_ids :=
                insertWorkId acc.uncommitted_work_ids sst.id resp.worker_id
              uncommitted_ssts :=
                acc.uncommitted_ssts ++ [(grouped.compaction_group_id, sst)] })
        um = some um2 →
      um2.uncommitted_checkpoint_post = um.uncommitted_checkpoint_post := by
    intro l
    induction l with
    | nil => intro um um2 h; cases h; rfl
    | cons g rest ih =>
        intro um um2 h
        rw [List.foldlM_cons] at h
        cases hsst : g.sst with
        | none => rw [hsst] at h; cases h
        | some sst =>
            rw [hsst] at h
            simp only [Option.map_some', Option.bind_eq_bind, Option.some_bind] at h
            have hres := ih _ um2 h
            exact hres
  intro um um2 h
  exact key resp.synced_sstables um um2 h

/-- Folding responses never touches the post deque. -/
theorem foldResps_post :
    ∀ (resps : List BarrierCompleteResponse) (um um2 : UncommittedMessages),
      resps.foldlM addRespMessages um = some um2 →
      um2.uncommitted_checkpoint_post = um.uncommitted_checkpoint_post := by
  intro resps
  induction resps with
  | nil => intro um um2 h; cases h; rfl
  | cons resp rest ih =>
      intro um um2 h
      rw [List.foldlM_cons] at h
      cases hadd : addRespMessages um resp with
      | none => rw [hadd] at h; cases h
      | some um1 =>
          rw [hadd] at h
          simp only [Option.bind_eq_bind, Option.some_bind] at h
          rw [ih um1 um2 h, addRespMessages_post resp um um1 hadd]

/-- `add_uncommitted_messages` pushes the post onto the FRONT of the deque. -/
theorem add_uncommitted_post (cc cc2 : CheckpointControl)
    (r : List BarrierCompleteResponse) (p : CheckpointPost)
    (h : cc.add_uncommitted_messages r p = some cc2) :
    cc2.uncommitted_messages.uncommitted_checkpoint_post =
      p :: cc.uncommitted_messages.uncommitted_checkpoint_post := by
  rw [CheckpointControl.add_uncommitted_messages, Option.map_eq_some'] at h
  rcases h with ⟨um, hum, hcc2⟩
  rw [← hcc2]
  simp only
  rw [foldResps_post r cc.uncommitted_messages um hum]

/-- Staging a batch prepends the posts in reverse order. -/
theorem addAllUncommitted_post :
    ∀ (items : List (List BarrierCompleteResponse × CheckpointPost))
      (cc cc2 : CheckpointControl), addAllUncommitted cc items = some cc2 →
      cc2.uncommitted_messages.uncommitted_checkpoint_post =
        (items.map Prod.snd).reverse ++ cc.uncommitted_messages.uncommitted_checkpoint_post := by
  intro items
  induction items with
  | nil => intro cc cc2 h; cases h; simp
  | cons item rest ih =>
      intro cc cc2 h
      rcases item with ⟨r, p⟩
      rw [addAllUncommitted] at h
      cases hadd : cc.add_uncommitted_messages r p with
      | none => rw [hadd] at h; cases h
      | some cc1 =>
          rw [hadd] at h
          simp only [Option.bind_eq_bind, Option.some_bind] at h
          rw [ih cc1 cc2 h, add_uncommitted_post cc cc1 r p hadd]
          simp

/-- C9: posts staged in order through `add_uncommitted_messages` are pushed on the
front of the deque, so the checkpoint-time drain (which pops from the back) replays
them in the original chronological order; within one post, the saved
collected-with-checkpoint senders fire before the finish notifiers. -/
theorem claim_C9 (cc : CheckpointControl)
    (items : List (List BarrierCompleteResponse × CheckpointPost))
    (cc2 : CheckpointControl)
    (h0 : cc.uncommitted_messages.uncommitted_checkpoint_post = [])
    (h : addAllUncommitted cc items = some cc2) :
    cc2.uncommitted_messages.uncommitted_checkpoint_post = (items.map Prod.snd).reverse
    ∧ drainCheckpointPosts cc2.uncommitted_messages.uncommitted_checkpoint_post
        = (items.map Prod.snd).flatMap postFireEvents
    ∧ ∀ p : CheckpointPost, postFireEvents p =
        (p.collect_notifiers_checkpoint.filterMap id).map FireEvent.collected_checkpoint
          ++ (p.finish_notifiers.filterMap (fun n => n.finished)).map FireEvent.finished := by
  have h1 := addAllUncommitted_post items cc cc2 h
  rw [h0, List.append_nil] at h1
  refine ⟨h1, ?_, fun p => rfl⟩
  rw [h1, drainCheckpointPosts, List.reverse_reverse]

/-- A staged post carrying one collect sender and one finish notifier each. -/
def c9postA : CheckpointPost :=
  { command_contexts :=
      { prev_epoch := 1, curr_epoch := 2, command := cmdPlain, checkpoint := true }
    collect_notifiers_checkpoint := [some 100]
    finish_notifiers := [{ finished := some 200 }] }

def c9postB : CheckpointPost :=
  { command_contexts :=
      { prev_epoch := 2, curr_epoch := 3, command := cmdPlain, checkpoint := true }
    collect_notifiers_checkpoint := [some 101]
    finish_notifiers := [{ finished := some 201 }] }

def c9items : List (List BarrierCompleteResponse × CheckpointPost) :=
  [([], c9postA), ([], c9postB)]

/-- The control after staging `c9postA` then `c9postB` on a fresh control. -/
def addAllUncommittedResultC9 : CheckpointControl :=
  { CheckpointControl.new 3 with
    uncommitted_messages :=
      { uncommitted_checkpoint_post := [c9postB, c9postA]
        uncommitted_ssts := []
        uncommitted_work_ids := [] } }

/-- C9 witness: two posts staged in order are drained oldest first, collect senders
before finish notifiers. -/
theorem claim_C9_witness :
    (addAllUncommittedResultC9).uncommitted_messages.uncommitted_checkpoint_post =
        (c9items.map Prod.snd).reverse
    ∧ drainCheckpointPosts
        (addAllUncommittedResultC9).uncommitted_messages.uncommitted_checkpoint_post
        = (c9items.map Prod.snd).flatMap postFireEvents
    ∧ ∀ p : CheckpointPost, postFireEvents p =
        (p.collect_notifiers_checkpoint.filterMap id).map FireEvent.collected_checkpoint
          ++ (p.finish_notifiers.filterMap (fun n => n.finished)).map FireEvent.finished :=
  claim_C9 (CheckpointControl.new 3) c9items addAllUncommittedResultC9 rfl rfl

/- ================= pre/post/remove inversion lemmas ================= -/

theorem pre_resolve_create (cc cc1 : CheckpointControl) (c : Command) (t : TableId)
    (hch : c.changes = CommandChanges.CreateTable t)
    (h : cc.pre_resolve c = some cc1) :
    t ∉ cc.dropping_tables ∧ t ∉ cc.creating_tables ∧
      cc1 = { cc with creating_tables := insert t cc.creating_tables } := by
  simp only [CheckpointControl.pre_resolve, hch] at h
  by_cases h1 : t ∈ cc.dropping_tables
  · rw [if_pos h1] at h; cases h
  · rw [if_neg h1] at h
    by_cases h2 : t ∈ cc.creating_tables
    · rw [if_pos h2] at h; cases h
    · rw [if_neg h2, Option.some.injEq] at h
      exact ⟨h1, h2, h.symm⟩

theorem pre_resolve_actor (cc cc1 : CheckpointControl) (c : Command)
    (to_add to_remove : Finset ActorId)
    (hch : c.changes = CommandChanges.Actor to_add to_remove)
    (h : cc.pre_resolve c = some cc1) :
    Disjoint cc.adding_actors to_add ∧
      cc1 = { cc with adding_actors := cc.adding_actors ∪ to_add } := by
  simp only [CheckpointControl.pre_resolve, hch] at h
  by_cases h1 : Disjoint cc.adding_actors to_add
  · rw [if_pos h1, Option.some.injEq] at h
    exact ⟨h1, h.symm⟩
  · rw [if_neg h1] at h; cases h

theorem pre_resolve_other (cc : CheckpointControl) (c : Command)
    (hch : (∃ t, c.changes = CommandChanges.DropTable t) ∨
      c.changes = CommandChanges.None) :
    cc.pre_resolve c = some cc := by
  rcases hch with ⟨t, ht⟩ | hn
  · simp only [CheckpointControl.pre_resolve, ht]
  · simp only [CheckpointControl.pre_resolve, hn]

theorem post_resolve_drop (cc cc1 : CheckpointControl) (c : Command) (t : TableId)
    (hch : c.changes = CommandChanges.DropTable t)
    (h : cc.post_resolve c = some cc1) :
    t ∉ cc.creating_tables ∧ t ∉ cc.dropping_tables ∧
      cc1 = { cc with dropping_tables := insert t cc.dropping_tables } := by
  simp only [CheckpointControl.post_resolve, hch] at h
  by_cases h1 : t ∈ cc.creating_tables
  · rw [if_pos h1] at h; cases h
  · rw [if_neg h1] at h
    by_cases h2 : t ∈ cc.dropping_tables
    · rw [if_pos h2] at h; cases h
    · rw [if_neg h2, Option.some.injEq] at h
      exact ⟨h1, h2, h.symm⟩

theorem post_resolve_actor (cc cc1 : CheckpointControl) (c : Command)
    (to_add to_remove : Finset ActorId)
    (hch : c.changes = CommandChanges.Actor to_add to_remove)
    (h : cc.post_resolve c = some cc1) :
    Disjoint cc.removing_actors to_remove ∧
      cc1 = { cc with removing_actors := cc.removing_actors ∪ to_remove } := by
  simp only [CheckpointControl.post_resolve, hch] at h
  by_cases h1 : Disjoint cc.removing_actors to_remove
  · rw [if_pos h1, Option.some.injEq] at h
    exact ⟨h1, h.symm⟩
  · rw [if_neg h1] at h; cases h

theorem post_resolve_other (cc : CheckpointControl) (c : Command)
    (hch : (∃ t, c.changes = CommandChanges.CreateTable t) ∨
      c.changes = CommandChanges.None) :
    cc.post_resolve c = some cc := by
  rcases hch with ⟨t, ht⟩ | hn
  · simp only [CheckpointControl.post_resolve, ht]
  · simp only [CheckpointControl.post_resolve, hn]

/- ================= C8 ================= -/

/-- The condition under which `pre_resolve` hits no assertion. -/
def preResolveOk (cc : CheckpointControl) (c : Command) : Prop :=
  match c.changes with
  | CommandChanges.CreateTable t => t ∉ cc.dropping_tables ∧ t ∉ cc.creating_tables
  | CommandChanges.Actor to_add _ => Disjoint cc.adding_actors to_add
  | _ => True

/-- The condition under which `post_resolve` hits no assertion. -/
def postResolveOk (cc : CheckpointControl) (c : Command) : Prop :=
  match c.changes with
  | CommandChanges.DropTable t => t ∉ cc.creating_tables ∧ t ∉ cc.dropping_tables
  | CommandChanges.Actor _ to_remove => Disjoint cc.removing_actors to_remove
  | _ => True

/-- The condition under which `remove_changes` hits no assertion. -/
def removeChangesOk (cc : CheckpointControl) : CommandChanges → Prop
  | CommandChanges.CreateTable t => t ∈ cc.creating_tables
  | CommandChanges.DropTable t => t ∈ cc.dropping_tables
  | CommandChanges.Actor to_add to_remove =>
      to_add ⊆ cc.adding_actors ∧ to_remove ⊆ cc.removing_actors
  | CommandChanges.None => True

/-- C8: a second in-flight creation of the same table id (or addition of the same
actor id) makes `pre_resolve` hit a fatal assertion instead of double-registering;
creating a table that is simultaneously being dropped also asserts; and when no id
is doubly registered, no assertion in `pre_resolve` / `post_resolve` /
`remove_changes` fires. -/
theorem claim_C8 :
    (∀ (cc cc1 : CheckpointControl) (c1 c2 : Command) (t : TableId),
      c1.changes = CommandChanges.CreateTable t →
      c2.changes = CommandChanges.CreateTable t →
      cc.pre_resolve c1 = some cc1 →
      cc1.pre_resolve c2 = none)
    ∧ (∀ (cc cc1 : CheckpointControl) (c1 c2 : Command)
        (a1 r1 a2 r2 : Finset ActorId) (x : ActorId),
      c1.changes = CommandChanges.Actor a1 r1 →
      c2.changes = CommandChanges.Actor a2 r2 →
      x ∈ a1 → x ∈ a2 →
      cc.pre_resolve c1 = some cc1 →
      cc1.pre_resolve c2 = none)
    ∧ (∀ (cc : CheckpointControl) (c : Command) (t : TableId),
      c.changes = CommandChanges.CreateTable t →
      t ∈ cc.dropping_tables → cc.pre_resolve c = none)
    ∧ (∀ (cc : CheckpointControl) (c : Command),
      preResolveOk cc c → (cc.pre_resolve c).isSome = true)
    ∧ (∀ (cc : CheckpointControl) (c : Command),
      postResolveOk cc c → (cc.post_resolve c).isSome = true)
    ∧ (∀ (cc : CheckpointControl) (ch : CommandChanges),
      removeChangesOk cc ch → (cc.remove_changes ch).isSome = true) := by
  refine ⟨?_, ?_, ?_, ?_, ?_, ?_⟩
  · intro cc cc1 c1 c2 t h1 h2 hpre
    rcases pre_resolve_create cc cc1 c1 t h1 hpre with ⟨_, _, hcc1⟩
    simp only [CheckpointControl.pre_resolve, h2, hcc1]
    simp
  · intro cc cc1 c1 c2 a1 r1 a2 r2 x h1 h2 hx1 hx2 hpre
    rcases pre_resolve_actor cc cc1 c1 a1 r1 h1 hpre with ⟨_, hcc1⟩
    simp only [CheckpointControl.pre_resolve, h2, hcc1]
    have hnd : ¬ Disjoint (cc.adding_actors ∪ a1) a2 := by
      intro hd
      exact absurd hx2 (Finset.disjoint_left.mp hd (Finset.mem_union_right _ hx1))
    rw [if_neg hnd]
  · intro cc c t hch hmem
    simp only [CheckpointControl.pre_resolve, hch]
    rw [if_pos hmem]
  · intro cc c hok
    cases hch : c.changes with
    | CreateTable t =>
        simp only [preResolveOk, hch] at hok
        simp only [CheckpointControl.pre_resolve, hch]
        rw [if_neg hok.1, if_neg hok.2]
        rfl
    | Actor to_add to_remove =>
        simp only [preResolveOk, hch] at hok
        simp only [CheckpointControl.pre_resolve, hch]
        rw [if_pos hok]
        rfl
    | DropTable t =>
        simp only [CheckpointControl.pre_resolve, hch]
        rfl
    | None =>
        simp only [CheckpointControl.pre_resolve, hch]
        rfl
  · intro cc c hok
    cases hch : c.changes with
    | DropTable t =>
        simp only [postResolveOk, hch] at hok
        simp only [CheckpointControl.post_resolve, hch]
        rw [if_neg hok.1, if_neg hok.2]
        rfl
    | Actor to_add to_remove =>
        simp only [postResolveOk, hch] at hok
        simp only [CheckpointControl.post_resolve, hch]
        rw [if_pos hok]
        rfl
    | CreateTable t =>
        simp only [CheckpointControl.post_resolve, hch]
        rfl
    | None =>
        simp only [CheckpointControl.post_resolve, hch]
        rfl
  · intro cc ch hok
    cases ch with
    | CreateTable t =>
        simp only [removeChangesOk] at hok
        simp only [CheckpointControl.remove_changes]
        rw [if_pos hok]
        rfl
    | DropTable t =>
        simp only [removeChangesOk] at hok
        simp only [CheckpointControl.remove_changes]
        rw [if_pos hok]
        rfl
    | Actor to_add to_remove =>
        simp only [removeChangesOk] at hok
        simp only [CheckpointControl.remove_changes]
        rw [if_pos hok]
        rfl
    | None => rfl

/-- The control after a fresh control pre-resolves the creation of table 42. -/
def ccAfterCreate42 : CheckpointControl :=
  { CheckpointControl.new 3 with
    creating_tables := insert 42 (∅ : Finset TableId) }

/-- C8 witness: Scenario D — two commands both creating table 42; the second
`pre_resolve` is a fatal assertion (`none`). -/
theorem claim_C8_witness : ccAfterCreate42.pre_resolve cmdCreate42 = none :=
  claim_C8.1 (CheckpointControl.new 3) ccAfterCreate42 cmdCreate42 cmdCreate42 42
    rfl rfl rfl

/- ================= C4 ================= -/

/-- Every inject RPC in the trace is preceded (in every prefix of the trace) by the
persist of its new epoch pointer. -/
def PersistedBeforeSent (tr : List RunEvent) : Prop :=
  ∀ (n : Nat) (p c : EpochT) (b : Bool),
    RunEvent.inject_rpc p c b ∈ tr.take n → RunEvent.persist c ∈ tr.take n

theorem persistedBeforeSent_append (l1 l2 : List RunEvent)
    (h1 : PersistedBeforeSent l1) (h2 : PersistedBeforeSent l2) :
    PersistedBeforeSent (l1 ++ l2) := by
  intro n p c b hmem
  rw [List.take_append_eq_append_take] at hmem ⊢
  rcases List.mem_append.mp hmem with hl | hr
  · exact List.mem_append.mpr (Or.inl (h1 n p c b hl))
  · exact List.mem_append.mpr (Or.inr (h2 _ p c b hr))

theorem persistedBeforeSent_pair (p c : EpochT) (b : Bool) :
    PersistedBeforeSent [RunEvent.persist c, RunEvent.inject_rpc p c b] := by
  intro n p2 c2 b2 hmem
  match n with
  | 0 => simp at hmem
  | 1 => simp at hmem
  | m + 2 =>
      rw [List.take_of_length_le (by simp)] at hmem ⊢
      rcases List.mem_cons.mp hmem with hx | hx


      · cases hx
      · rcases List.mem_cons.mp hx with hy | hy
        · cases hy
          exact List.mem_cons_self _ _
        · simp at hy

theorem persistedBeforeSent_persist (e : EpochT) :
    PersistedBeforeSent [RunEvent.persist e] := by
  intro n p c b hmem
  match n with
  | 0 => simp at hmem
  | m + 1 =>
      rw [List.take_of_length_le (by simp)] at hmem
      simp at hmem

/-- The trace of `runSteps`: every inject RPC allocates `curr = prev.next` and
starts at or above the entry epoch pointer; all inject `curr` epochs exceed the
entry pointer; and the inject `curr` epochs are pairwise strictly increasing. -/
theorem runSteps_trace_spec :
    ∀ (steps : List EpochStep) (st : BarrierManagerState) (cc : CheckpointControl),
      (∀ p c b, RunEvent.inject_rpc p c b ∈ (runSteps st cc steps).2.2 →
        c = EpochT.next p ∧ st.in_flight_prev_epoch ≤ p)
      ∧ (∀ x ∈ injectCurrs (runSteps st cc steps).2.2, st.in_flight_prev_epoch < x)
      ∧ List.Pairwise (· < ·) (injectCurrs (runSteps st cc steps).2.2) := by
  intro steps
  induction steps with
  | nil =>
      intro st cc
      refine ⟨?_, ?_, ?_⟩
      · intro p c b hmem; simp [runSteps] at hmem
      · intro x hx; simp [runSteps, injectCurrs] at hx
      · simp [runSteps, injectCurrs]
  | cons step rest ih =>
      intro st cc
      cases step with
      | inject command notifiers =>
          have hrun : (runSteps st cc (EpochStep.inject command notifiers :: rest)).2.2 =
              (runInjectStep st cc command notifiers).events ++
                (runSteps (runInjectStep st cc command notifiers).state
                  (runInjectStep st cc command notifiers).cc rest).2.2 := rfl
          have hevents : (runInjectStep st cc command notifiers).events =
              [RunEvent.persist (EpochT.next st.in_flight_prev_epoch),
               RunEvent.inject_rpc st.in_flight_prev_epoch
                 (EpochT.next st.in_flight_prev_epoch)
                 (runInjectStep st cc command notifiers).checkpoint] := rfl
          have hstate : (runInjectStep st cc command notifiers).state =
              { in_flight_prev_epoch := EpochT.next st.in_flight_prev_epoch } := rfl
          obtain ⟨ih1, ih2, ih3⟩ :=
            ih (runInjectStep st cc command notifiers).state
              (runInjectStep st cc command notifiers).cc
          refine ⟨?_, ?_, ?_⟩
          · intro p c b hmem
            rw [hrun, hevents] at hmem
            rcases List.mem_append.mp hmem with hl | hr
            · rcases List.mem_cons.mp hl with hx | hx
              · cases hx
              · rcases List.mem_cons.mp hx with hy | hy
                · cases hy
                  exact ⟨rfl, Nat.le_refl _⟩
                · simp at hy
            · rcases ih1 p c b hr with ⟨hc, hle⟩
              rw [hstate] at hle
              exact ⟨hc, Nat.le_trans (Nat.le_succ _) hle⟩
          · intro x hx
            rw [hrun, hevents] at hx
            rw [injectCurrs, List.filterMap_append] at hx
            rcases List.mem_append.mp hx with hl | hr
            · simp [injectCurrs] at hl
              rw [hl]
              exact Nat.lt_succ_self _
            · have := ih2 x hr
              rw [hstate] at this
              exact Nat.lt_trans (Nat.lt_succ_self _) this
          · rw [hrun, hevents, injectCurrs, List.filterMap_append]
            have hsingle :
                List.filterMap
                  (fun e => match e with
                    | RunEvent.inject_rpc _ curr _ => some curr
                    | RunEvent.persist _ => none)
                  [RunEvent.persist (EpochT.next st.in_flight_prev_epoch),
                   RunEvent.inject_rpc st.in_flight_prev_epoch
                     (EpochT.next st.in_flight_prev_epoch)
                     (runInjectStep st cc command notifiers).checkpoint] =
                  [EpochT.next st.in_flight_prev_epoch] := rfl
            rw [hsingle]
            refine List.Pairwise.cons ?_ ih3
            intro y hy
            have := ih2 y hy
            rw [hstate] at this
            exact this
      | recover =>
          have hrun : (runSteps st cc (EpochStep.recover :: rest)).2.2 =
              [RunEvent.persist (EpochT.next st.in_flight_prev_epoch)] ++
                (runSteps (recoveryStep st).1
                  (CheckpointControl.new cc.checkpoint_frequency) rest).2.2 := rfl
          have hstate : (recoveryStep st).1 =
              { in_flight_prev_epoch := EpochT.next st.in_flight_prev_epoch } := rfl
          obtain ⟨ih1, ih2, ih3⟩ :=
            ih (recoveryStep st).1 (CheckpointControl.new cc.checkpoint_frequency)
          refine ⟨?_, ?_, ?_⟩
          · intro p c b hmem
            rw [hrun] at hmem
            rcases List.mem_append.mp hmem with hl | hr
            · simp at hl
            · rcases ih1 p c b hr with ⟨hc, hle⟩
              rw [hstate] at hle
              exact ⟨hc, Nat.le_trans (Nat.le_succ _) hle⟩
          · intro x hx
            rw [hrun, injectCurrs, List.filterMap_append] at hx
            rcases List.mem_append.mp hx with hl | hr
            · simp at hl
            · have := ih2 x hr
              rw [hstate] at this
              exact Nat.lt_trans (Nat.lt_succ_self _) this
          · rw [hrun, injectCurrs, List.filterMap_append]
            have hempty :
                List.filterMap
                  (fun e => match e with
                    | RunEvent.inject_rpc _ curr _ => some curr
                    | RunEvent.persist _ => none)
                  [RunEvent.persist (EpochT.next st.in_flight_prev_epoch)] = [] := rfl
            rw [hempty, List.nil_append]
            exact ih3

/-- The trace of `runSteps` persists every newly allocated epoch before its inject
RPC appears. -/
theorem runSteps_pbs :
    ∀ (steps : List EpochStep) (st : BarrierManagerState) (cc : CheckpointControl),
      PersistedBeforeSent (runSteps st cc steps).2.2 := by
  intro steps
  induction steps with
  | nil =>
      intro st cc n p c b hmem
      simp [runSteps] at hmem
  | cons step rest ih =>
      intro st cc
      cases step with
      | inject command notifiers =>
          exact persistedBeforeSent_append _ _
            (persistedBeforeSent_pair st.in_flight_prev_epoch
              (EpochT.next st.in_flight_prev_epoch)
              (runInjectStep st cc command notifiers).checkpoint)
            (ih _ _)
      | recover =>
          exact persistedBeforeSent_append _ _
            (persistedBeforeSent_persist (EpochT.next st.in_flight_prev_epoch))
            (ih _ _)

/-- C4: along any schedule of barrier injections and recoveries, every injected
barrier allocates `new_epoch = prev_epoch.next() > prev_epoch`; the allocated
epochs are strictly increasing across the whole run, including across Recovery
boundaries; and each new `prev_epoch` pointer is persisted in the trace before the
inject RPC for that barrier is sent. -/
theorem claim_C4 (st : BarrierManagerState) (cc : CheckpointControl)
    (steps : List EpochStep) :
    (∀ p c b, RunEvent.inject_rpc p c b ∈ (runSteps st cc steps).2.2 →
      c = EpochT.next p ∧ p < c)
    ∧ List.Pairwise (· < ·) (injectCurrs (runSteps st cc steps).2.2)
    ∧ PersistedBeforeSent (runSteps st cc steps).2.2 := by
  obtain ⟨h1, _, h3⟩ := runSteps_trace_spec steps st cc
  refine ⟨?_, h3, runSteps_pbs steps st cc⟩
  intro p c b hmem
  rcases h1 p c b hmem with ⟨hc, _⟩
  exact ⟨hc, by rw [hc]; exact Nat.lt_succ_self _⟩

/-- C4 witness: a concrete run — inject, recover, inject — from epoch pointer 5. -/
theorem claim_C4_witness :
    ((6 : EpochT) = EpochT.next 5 ∧ (5 : EpochT) < 6)
    ∧ List.Pairwise (· < ·)
        (injectCurrs (runSteps { in_flight_prev_epoch := 5 } (CheckpointControl.new 2)
          [EpochStep.inject cmdPlain [], EpochStep.recover,
           EpochStep.inject cmdPlain []]).2.2) := by
  have h := claim_C4 { in_flight_prev_epoch := 5 } (CheckpointControl.new 2)
    [EpochStep.inject cmdPlain [], EpochStep.recover, EpochStep.inject cmdPlain []]
  exact ⟨h.1 5 6 false (by decide), h.2.1⟩

/- ================= queue-preservation lemmas ================= -/

theorem pre_resolve_queue (cc cc1 : CheckpointControl) (c : Command)
    (h : cc.pre_resolve c = some cc1) :
    cc1.command_ctx_queue = cc.command_ctx_queue := by
  cases hch : c.changes with
  | CreateTable t =>
      rcases pre_resolve_create cc cc1 c t hch h with ⟨_, _, h3⟩
      rw [h3]
  | Actor to_add to_remove =>
      rcases pre_resolve_actor cc cc1 c to_add to_remove hch h with ⟨_, h2⟩
      rw [h2]
  | DropTable t =>
      rw [pre_resolve_other cc c (Or.inl ⟨t, hch⟩), Option.some.injEq] at h
      rw [← h]
  | None =>
      rw [pre_resolve_other cc c (Or.inr hch), Option.some.injEq] at h
      rw [← h]

theorem post_resolve_queue (cc cc1 : CheckpointControl) (c : Command)
    (h : cc.post_resolve c = some cc1) :
    cc1.command_ctx_queue = cc.command_ctx_queue := by
  cases hch : c.changes with
  | DropTable t =>
      rcases post_resolve_drop cc cc1 c t hch h with ⟨_, _, h3⟩
      rw [h3]
  | Actor to_add to_remove =>
      rcases post_resolve_actor cc cc1 c to_add to_remove hch h with ⟨_, h2⟩
      rw [h2]
  | CreateTable t =>
      rw [post_resolve_other cc c (Or.inl ⟨t, hch⟩), Option.some.injEq] at h
      rw [← h]
  | None =>
      rw [post_resolve_other cc c (Or.inr hch), Option.some.injEq] at h
      rw [← h]

theorem remove_changes_queue (cc cc2 : CheckpointControl) (ch : CommandChanges)
    (h : cc.remove_changes ch = some cc2) :
    cc2.command_ctx_queue = cc.command_ctx_queue := by
  cases ch with
  | CreateTable t =>
      simp only [CheckpointControl.remove_changes] at h
      by_cases hm : t ∈ cc.creating_tables
      · rw [if_pos hm, Option.some.injEq] at h
        rw [← h]
      · rw [if_neg hm] at h; cases h
  | DropTable t =>
      simp only [CheckpointControl.remove_changes] at h
      by_cases hm : t ∈ cc.dropping_tables
      · rw [if_pos hm, Option.some.injEq] at h
        rw [← h]
      · rw [if_neg hm] at h; cases h
  | Actor to_add to_remove =>
      simp only [CheckpointControl.remove_changes] at h
      by_cases hm : to_add ⊆ cc.adding_actors ∧ to_remove ⊆ cc.removing_actors
      · rw [if_pos hm, Option.some.injEq] at h
        rw [← h]
      · rw [if_neg hm] at h; cases h
  | None =>
      simp only [CheckpointControl.remove_changes, Option.some.injEq] at h
      rw [← h]

theorem removeChangesAll_queue :
    ∀ (nodes : List EpochNode) (cc cc2 : CheckpointControl),
      removeChangesAll cc nodes = some cc2 →
      cc2.command_ctx_queue = cc.command_ctx_queue := by
  intro nodes
  induction nodes with
  | nil => intro cc cc2 h; cases h; rfl
  | cons node rest ih =>
      intro cc cc2 h
      rw [removeChangesAll] at h
      cases hrm : cc.remove_changes node.command_ctx.command.changes with
      | none => rw [hrm] at h; cases h
      | some cc1 =>
          rw [hrm, Option.some_bind] at h
          rw [ih cc1 cc2 h, remove_changes_queue cc cc1 _ hrm]

/-- `fail` drains exactly the queue and leaves the queue empty. -/
theorem fail_spec (cc : CheckpointControl) (nodes : List EpochNode)
    (cc2 : CheckpointControl) (h : cc.fail = some (nodes, cc2)) :
    nodes = cc.command_ctx_queue ∧ cc2.command_ctx_queue = [] := by
  rw [CheckpointControl.fail, Option.map_eq_some'] at h
  rcases h with ⟨cc3, hrm, hpair⟩
  have h1 := removeChangesAll_queue _ _ _ hrm
  have h2 : cc.command_ctx_queue = nodes ∧ cc3 = cc2 := Prod.mk.injEq _ _ _ _ ▸ hpair
  refine ⟨h2.1.symm, ?_⟩
  rw [← h2.2, h1]

/-- `try_get_checkpoint` does not touch the queue. -/
theorem try_get_checkpoint_queue (cc : CheckpointControl) :
    cc.try_get_checkpoint.2.command_ctx_queue = cc.command_ctx_queue := by
  rw [CheckpointControl.try_get_checkpoint]
  split <;> rfl

/-- The injection step appends exactly one `InFlight` node carrying the current
epoch pointer and the popped command. -/
theorem runInjectStep_queue (st : BarrierManagerState) (cc : CheckpointControl)
    (cmd : Command) (nfs : List Notifier) :
    ∃ node : EpochNode,
      (runInjectStep st cc cmd nfs).cc.command_ctx_queue =
        cc.command_ctx_queue ++ [node]
      ∧ node.state = BarrierEpochState.InFlight
      ∧ node.command_ctx.prev_epoch = st.in_flight_prev_epoch
      ∧ node.command_ctx.command = cmd
      ∧ node.notifiers = nfs := by
  have hq : ((if !cmd.plain then cc.inject_checkpoint_in_next_barrier
      else cc).try_get_checkpoint).2.command_ctx_queue = cc.command_ctx_queue := by
    rw [try_get_checkpoint_queue]
    by_cases h : (!cmd.plain) = true
    · rw [if_pos h]; rfl
    · rw [if_neg h]
  refine ⟨{ state := BarrierEpochState.InFlight
            command_ctx :=
              { prev_epoch := st.in_flight_prev_epoch
                curr_epoch := EpochT.next st.in_flight_prev_epoch
                command := cmd
                checkpoint := ((if !cmd.plain then cc.inject_checkpoint_in_next_barrier
                  else cc).try_get_checkpoint).1 }
            notifiers := nfs }, ?_, rfl, rfl, rfl, rfl⟩
  simp only [runInjectStep, CheckpointControl.inject]
  rw [hq]

/- ================= commit sublist lemmas ================= -/

theorem commitsOfNode_cases (n : EpochNode) :
    commitsOfNode n = [] ∨ commitsOfNode n = [nodePrev n] := by
  rw [commitsOfNode]
  cases hst : n.state with
  | InFlight => exact Or.inl rfl
  | Completed resps ck =>
      by_cases hc : ck = true ∧ n.command_ctx.prev_epoch ≠ INVALID_EPOCH
      · refine Or.inr ?_
        show (if ck = true ∧ n.command_ctx.prev_epoch ≠ INVALID_EPOCH then
          [n.command_ctx.prev_epoch] else []) = [nodePrev n]
        rw [if_pos hc]
        rfl
      · refine Or.inl ?_
        show (if ck = true ∧ n.command_ctx.prev_epoch ≠ INVALID_EPOCH then
          [n.command_ctx.prev_epoch] else []) = []
        rw [if_neg hc]

theorem commitsOfDrained_sublist (l : List EpochNode) :
    List.Sublist (commitsOfDrained l) (l.map nodePrev) := by
  induction l with
  | nil => exact List.Sublist.refl _
  | cons n rest ih =>
      have hc : commitsOfDrained (n :: rest) =
          commitsOfNode n ++ commitsOfDrained rest := rfl
      rw [hc, List.map_cons]
      rcases commitsOfNode_cases n with h | h <;> rw [h]
      · exact List.Sublist.cons _ ih
      · exact List.Sublist.cons₂ _ ih

theorem commitsOfDrained_take (l : List EpochNode) (k : Nat) :
    List.Sublist (commitsOfDrained (l.take k)) (commitsOfDrained l) := by
  have hsplit : commitsOfDrained l =
      commitsOfDrained (l.take k) ++ commitsOfDrained (l.drop k) := by
    rw [commitsOfDrained, commitsOfDrained, commitsOfDrained,
      ← List.flatMap_append, List.take_append_drop]
  rw [hsplit]
  exact List.sublist_append_left _ _

/- ================= pause-flag lemmas ================= -/

/-- The pause flags of the queued commands, front first. -/
def pauseList (cc : CheckpointControl) : List Bool :=
  cc.command_ctx_queue.map (fun n => n.command_ctx.command.should_pause_inject_barrier)

/-- All entries except possibly the last are false. -/
def PauseOnlyLast (l : List Bool) : Prop := ∀ b ∈ l.dropLast, b = false

theorem pauseOnlyLast_suffix (l s : List Bool) (h : PauseOnlyLast l)
    (hs : List.IsSuffix s l) : PauseOnlyLast s := by
  rcases hs with ⟨t, rfl⟩
  intro b hb
  cases hsn : s with
  | nil => rw [hsn] at hb; cases hb
  | cons x xs =>
      refine h b ?_
      rw [List.dropLast_append_of_ne_nil t (by rw [hsn]; exact List.cons_ne_nil x xs)]
      exact List.mem_append_right _ hb

theorem pauseOnlyLast_all (l : List Bool) (h : PauseOnlyLast l)
    (hlast : l.getLast?.getD false = false) : ∀ b ∈ l, b = false := by
  intro b hb
  cases hl : l with
  | nil => rw [hl] at hb; cases hb
  | cons x xs =>
      have hne : l ≠ [] := by rw [hl]; exact List.cons_ne_nil x xs
      rw [List.getLast?_eq_getLast l hne] at hlast
      rw [← List.dropLast_append_getLast hne] at hb
      rcases List.mem_append.mp hb with hmem | hmem
      · exact h b hmem
      · rcases List.mem_singleton.mp hmem with rfl
        exact hlast

/- ================= facts about complete ================= -/

theorem complete_prevs_split (cc : CheckpointControl) (e : EpochT)
    (r : List BarrierCompleteResponse) (drained : List EpochNode)
    (cc2 : CheckpointControl) (hc : cc.complete e r = some (drained, cc2)) :
    drained.map nodePrev ++ queuePrevs cc2 = queuePrevs cc := by
  rcases (complete_eq cc e r drained cc2).mp hc with ⟨q, hq, hdr, hcc2⟩
  subst hdr
  subst hcc2
  show _ ++ List.map nodePrev (q.dropWhile fun n => n.state.isCompleted) = _
  rw [← List.map_append, List.takeWhile_append_dropWhile]
  exact markComplete_prevs e r _ q hq

theorem complete_pause_suffix (cc : CheckpointControl) (e : EpochT)
    (r : List BarrierCompleteResponse) (drained : List EpochNode)
    (cc2 : CheckpointControl) (hc : cc.complete e r = some (drained, cc2)) :
    List.IsSuffix (pauseList cc2) (pauseList cc) := by
  rcases (complete_eq cc e r drained cc2).mp hc with ⟨q, hq, hdr, hcc2⟩
  subst hcc2
  have hql : q.map (fun n => n.command_ctx.command.should_pause_inject_barrier) =
      pauseList cc := by
    have h1 := markComplete_ctx e r _ q hq
    rw [pauseList]
    calc q.map (fun n => n.command_ctx.command.should_pause_inject_barrier)
        = (q.map (fun n => n.command_ctx)).map
            (fun c => c.command.should_pause_inject_barrier) := by
          rw [List.map_map]; rfl
      _ = (cc.command_ctx_queue.map (fun n => n.command_ctx)).map
            (fun c => c.command.should_pause_inject_barrier) := by rw [h1]
      _ = cc.command_ctx_queue.map
            (fun n => n.command_ctx.command.should_pause_inject_barrier) := by
          rw [List.map_map]; rfl
  rw [← hql]
  exact (List.dropWhile_suffix _).map _

theorem complete_count_le (cc : CheckpointControl) (e : EpochT)
    (r : List BarrierCompleteResponse) (drained : List EpochNode)
    (cc2 : CheckpointControl) (hc : cc.complete e r = some (drained, cc2)) :
    cc2.inFlightCount ≤ cc.inFlightCount := by
  rcases (complete_eq cc e r drained cc2).mp hc with ⟨q, hq, hdr, hcc2⟩
  subst hcc2
  refine Nat.le_trans ?_ (markComplete_inflight e r _ q hq)
  exact ((List.dropWhile_sublist _).filter _).length_le

/- ================= system invariant ================= -/

/-- The inductive invariant of the orchestrator loop: the queue is epoch-sorted
below the persisted pointer, committed epochs are sorted, below the pointer and
below every queued epoch, only the last queued command may pause injection, and
the in-flight count is bounded. -/
def SysInv (max : Nat) (s : SysState) : Prop :=
  List.Pairwise (· < ·) (queuePrevs s.cc)
  ∧ (∀ x ∈ queuePrevs s.cc, x < s.state.in_flight_prev_epoch)
  ∧ List.Pairwise (· < ·) s.committed
  ∧ (∀ c ∈ s.committed, c < s.state.in_flight_prev_epoch)
  ∧ (∀ c ∈ s.committed, ∀ x ∈ queuePrevs s.cc, c < x)
  ∧ PauseOnlyLast (pauseList s.cc)
  ∧ s.cc.inFlightCount ≤ max

theorem step_preserves_inv (max : Nat) (s s2 : SysState)
    (hInv : SysInv max s) (hs : Step max s s2) : SysInv max s2 := by
  obtain ⟨i1, i2, i3, i4, i5, i6, i7⟩ := hInv
  cases hs with
  | inject command notifiers cc1 cc2 hguard hpre hpost =>
      have hq1 := pre_resolve_queue _ _ _ hpre
      have hq2 := post_resolve_queue _ _ _ hpost
      obtain ⟨node, hq, hnst, hnprev, hncmd, _⟩ :=
        runInjectStep_queue s.state cc2 command notifiers
      have hqq : (runInjectStep s.state cc2 command notifiers).cc.command_ctx_queue
          = s.cc.command_ctx_queue ++ [node] := by
        rw [hq, hq2, hq1]
      have hstate : (runInjectStep s.state cc2 command notifiers).state
          = { in_flight_prev_epoch := EpochT.next s.state.in_flight_prev_epoch } := rfl
      have hpl : queuePrevs (runInjectStep s.state cc2 command notifiers).cc
          = queuePrevs s.cc ++ [s.state.in_flight_prev_epoch] := by
        rw [queuePrevs, hqq, List.map_append, queuePrevs]
        rw [show ([node] : List EpochNode).map nodePrev = [nodePrev node] from rfl]
        rw [show nodePrev node = s.state.in_flight_prev_epoch from hnprev]
      simp only [CheckpointControl.can_inject_barrier] at hguard
      rw [Bool.and_eq_true] at hguard
      rcases hguard with ⟨hcount, hpause⟩
      have hcount2 : s.cc.inFlightCount < max := of_decide_eq_true hcount
      have hpause2 : ((s.cc.command_ctx_queue.getLast?.map
          (fun x => x.command_ctx.command.should_pause_inject_barrier)).getD false)
          = false := by
        cases hb : (s.cc.command_ctx_queue.getLast?.map
            (fun x => x.command_ctx.command.should_pause_inject_barrier)).getD false
        · rfl
        · rw [hb] at hpause; cases hpause
      have hplast : (pauseList s.cc).getLast?.getD false = false := by
        rw [pauseList, List.getLast?_map]
        exact hpause2
      have hall := pauseOnlyLast_all _ i6 hplast
      have hpln : pauseList (runInjectStep s.state cc2 command notifiers).cc
          = pauseList s.cc ++ [command.should_pause_inject_barrier] := by
        rw [pauseList, hqq, List.map_append, pauseList]
        rw [show ([node] : List EpochNode).map
            (fun n => n.command_ctx.command.should_pause_inject_barrier)
          = [node.command_ctx.command.should_pause_inject_barrier] from rfl]
        rw [hncmd]
      refine ⟨?_, ?_, i3, ?_, ?_, ?_, ?_⟩
      · show List.Pairwise (· < ·)
          (queuePrevs (runInjectStep s.state cc2 command notifiers).cc)
        rw [hpl, List.pairwise_append]
        refine ⟨i1, List.pairwise_singleton _ _, ?_⟩
        intro a ha b hb
        rcases List.mem_singleton.mp hb with rfl
        exact i2 a ha
      · show ∀ x ∈ queuePrevs (runInjectStep s.state cc2 command notifiers).cc,
          x < (runInjectStep s.state cc2 command notifiers).state.in_flight_prev_epoch
        rw [hpl, hstate]
        intro x hx
        rcases List.mem_append.mp hx with hx | hx
        · exact Nat.lt_succ_of_lt (i2 x hx)
        · rcases List.mem_singleton.mp hx with rfl
          exact Nat.lt_succ_self _
      · show ∀ c ∈ s.committed,
          c < (runInjectStep s.state cc2 command notifiers).state.in_flight_prev_epoch
        rw [hstate]
        intro c hcm
        exact Nat.lt_succ_of_lt (i4 c hcm)
      · show ∀ c ∈ s.committed,
          ∀ x ∈ queuePrevs (runInjectStep s.state cc2 command notifiers).cc, c < x
        rw [hpl]
        intro c hcm x hx
        rcases List.mem_append.mp hx with hx | hx
        · exact i5 c hcm x hx
        · rcases List.mem_singleton.mp hx with rfl
          exact i4 c hcm
      · show PauseOnlyLast (pauseList (runInjectStep s.state cc2 command notifiers).cc)
        rw [hpln]
        intro b hb
        rw [show (pauseList s.cc ++ [command.should_pause_inject_barrier]).dropLast
          = pauseList s.cc by simp] at hb
        exact hall b hb
      · show (runInjectStep s.state cc2 command notifiers).cc.inFlightCount ≤ max
        rw [CheckpointControl.inFlightCount, hqq, List.filter_append]
        rw [show List.filter (fun x => x.state.isInFlight) [node] = [node] by
          simp [hnst, BarrierEpochState.isInFlight]]
        rw [List.length_append, List.length_singleton]
        show s.cc.inFlightCount + 1 ≤ max
        omega
  | complete_ok prev_epoch resps drained cc2 hc =>
      have hsplit := complete_prevs_split s.cc prev_epoch resps drained cc2 hc
      have hqpw : List.Pairwise (· < ·) (drained.map nodePrev ++ queuePrevs cc2) := by
        rw [hsplit]; exact i1
      rcases List.pairwise_append.mp hqpw with ⟨pA, pB, cross⟩
      have hcsub := commitsOfDrained_sublist drained
      refine ⟨pB, ?_, ?_, ?_, ?_, ?_, ?_⟩
      · intro x hx
        exact i2 x (by rw [← hsplit]; exact List.mem_append_right _ hx)
      · rw [List.pairwise_append]
        refine ⟨i3, pA.sublist hcsub, ?_⟩
        intro c hcm x hx
        exact i5 c hcm x
          (by rw [← hsplit]; exact List.mem_append_left _ (hcsub.subset hx))
      · intro c hcm
        rcases List.mem_append.mp hcm with hcm | hcm
        · exact i4 c hcm
        · exact i2 c
            (by rw [← hsplit]; exact List.mem_append_left _ (hcsub.subset hcm))
      · intro c hcm x hx
        rcases List.mem_append.mp hcm with hcm | hcm
        · exact i5 c hcm x (by rw [← hsplit]; exact List.mem_append_right _ hx)
        · exact cross c (hcsub.subset hcm) x hx
      · exact pauseOnlyLast_suffix _ _ i6
          (complete_pause_suffix s.cc prev_epoch resps drained cc2 hc)
      · exact Nat.le_trans (complete_count_le s.cc prev_epoch resps drained cc2 hc) i7
  | complete_err prev_epoch resps drained cc2 k failRest cc3 hc hk hfail =>
      have hsplit := complete_prevs_split s.cc prev_epoch resps drained cc2 hc
      have hqpw : List.Pairwise (· < ·) (drained.map nodePrev ++ queuePrevs cc2) := by
        rw [hsplit]; exact i1
      rcases List.pairwise_append.mp hqpw with ⟨pA, _, _⟩
      have hcsub : List.Sublist (commitsOfDrained (drained.take k))
          (drained.map nodePrev) :=
        List.Sublist.trans (commitsOfDrained_take drained k)
          (commitsOfDrained_sublist drained)
      have hq3 : cc3.command_ctx_queue = [] := (fail_spec cc2 failRest cc3 hfail).2
      have hqp3 : queuePrevs cc3 = [] := by rw [queuePrevs, hq3]; rfl
      refine ⟨?_, ?_, ?_, ?_, ?_, ?_, ?_⟩
      · rw [hqp3]; exact List.Pairwise.nil
      · intro x hx; rw [hqp3] at hx; cases hx
      · rw [List.pairwise_append]
        refine ⟨i3, pA.sublist hcsub, ?_⟩
        intro c hcm x hx
        exact i5 c hcm x
          (by rw [← hsplit]; exact List.mem_append_left _ (hcsub.subset hx))
      · intro c hcm
        rcases List.mem_append.mp hcm with hcm | hcm
        · exact i4 c hcm
        · exact i2 c
            (by rw [← hsplit]; exact List.mem_append_left _ (hcsub.subset hcm))
      · intro c hcm x hx; rw [hqp3] at hx; cases hx
      · show PauseOnlyLast (pauseList cc3)
        rw [pauseList, hq3]
        intro b hb; cases hb
      · show cc3.inFlightCount ≤ max
        rw [CheckpointControl.inFlightCount, hq3]
        exact Nat.zero_le _
  | fail_step failRest cc2 hfail =>
      have hq2 : cc2.command_ctx_queue = [] := (fail_spec s.cc failRest cc2 hfail).2
      have hqp2 : queuePrevs cc2 = [] := by rw [queuePrevs, hq2]; rfl
      refine ⟨?_, ?_, i3, i4, ?_, ?_, ?_⟩
      · rw [hqp2]; exact List.Pairwise.nil
      · intro x hx; rw [hqp2] at hx; cases hx
      · intro c hcm x hx; rw [hqp2] at hx; cases hx
      · show PauseOnlyLast (pauseList cc2)
        rw [pauseList, hq2]
        intro b hb; cases hb
      · show cc2.inFlightCount ≤ max
        rw [CheckpointControl.inFlightCount, hq2]
        exact Nat.zero_le _

theorem reachable_inv (max : Nat) (s : SysState) (h : Reachable max s) :
    SysInv max s := by
  induction h with
  | init freq prev0 =>
      refine ⟨List.Pairwise.nil, ?_, List.Pairwise.nil, ?_, ?_, ?_, Nat.zero_le _⟩
      · intro x hx; cases hx
      · intro c hcm; cases hcm
      · intro c hcm; cases hcm
      · intro b hb; cases hb
  | step s s2 _ hstep ih => exact step_preserves_inv max s s2 ih hstep

/- ================= C1 ================= -/

/-- C1: `complete(prev_epoch, responses)` marks exactly the queue node whose
`prev_epoch` matches as `Completed` (it must have been `InFlight`; all other nodes
are untouched) and drains exactly the longest `Completed`-only prefix of the queue;
consequently, in every reachable state of the commit pipeline the sequence of
`commit_epoch` calls is non-decreasing in epoch and every committed epoch is
strictly older than every epoch still in the queue — no epoch is committed while an
older epoch is still `InFlight`. -/
theorem claim_C1 :
    (∀ (cc : CheckpointControl) (e : EpochT) (r : List BarrierCompleteResponse)
        (drained : List EpochNode) (cc2 : CheckpointControl),
      (queuePrevs cc).Nodup →
      cc.complete e r = some (drained, cc2) →
      List.Forall₂ (fun a b =>
        (nodePrev a ≠ e → b = a) ∧
        (nodePrev a = e → a.state = BarrierEpochState.InFlight ∧ b = markedNode r a))
        cc.command_ctx_queue (drained ++ cc2.command_ctx_queue)
      ∧ (∀ n ∈ drained, n.state.isCompleted = true)
      ∧ (∀ n, cc2.command_ctx_queue.head? = some n → n.state.isCompleted = false))
    ∧ (∀ (max : Nat) (s : SysState), Reachable max s →
        List.Pairwise (· ≤ ·) s.committed
        ∧ ∀ c ∈ s.committed, ∀ x ∈ queuePrevs s.cc, c < x) := by
  constructor
  · intro cc e r drained cc2 hnd hc
    rcases (complete_eq cc e r drained cc2).mp hc with ⟨q, hq, hdr, hcc2⟩
    have hf2 := markComplete_spec e r cc.command_ctx_queue q hnd hq
    refine ⟨?_, ?_, ?_⟩
    · have hsum : drained ++ cc2.command_ctx_queue = q := by
        rw [hdr, hcc2]
        exact List.takeWhile_append_dropWhile _ _
      rw [hsum]
      exact hf2
    · intro n hn
      rw [hdr] at hn
      exact List.mem_takeWhile_imp (l := q) (p := fun x => x.state.isCompleted) hn
    · intro n hn
      rw [hcc2] at hn
      have hd := List.head?_dropWhile_not (fun n => n.state.isCompleted) q
      simp only at hn
      rw [hn] at hd
      simp at hd
      exact hd
  · intro max s h
    have hi := reachable_inv max s h
    exact ⟨(hi.2.2.1).imp Nat.le_of_lt, hi.2.2.2.2.1⟩

/-- C1 witness: the drained prefix of a concrete one-node completion is all
`Completed`, and the initial reachable state has a sorted (empty) commit log. -/
theorem claim_C1_witness :
    (∀ n ∈ [c10marked], n.state.isCompleted = true)
    ∧ List.Pairwise (· ≤ ·) (initSysState 3 5).committed :=
  ⟨(claim_C1.1 c10cc 7 [] [c10marked] { c10cc with command_ctx_queue := [] }
      (by decide) rfl).2.1,
   (claim_C1.2 1 (initSysState 3 5) (Reachable.init 3 5)).1⟩

/- ================= C5 ================= -/

/-- C5: in every reachable state of the orchestrator loop the number of `InFlight`
nodes is at most `in_flight_barrier_nums` (a new barrier is injected only when
`can_inject_barrier` holds), and `can_inject_barrier` returns true exactly when the
`InFlight` count is strictly below the bound and no queued-but-incomplete command
has `should_pause_inject_barrier`. -/
theorem claim_C5 (max : Nat) (s : SysState) (h : Reachable max s) :
    s.cc.inFlightCount ≤ max
    ∧ (s.cc.can_inject_barrier max = true ↔
        (s.cc.inFlightCount < max ∧
          ∀ n ∈ s.cc.command_ctx_queue,
            n.command_ctx.command.should_pause_inject_barrier = false)) := by
  have hi := reachable_inv max s h
  refine ⟨hi.2.2.2.2.2.2, ?_⟩
  simp only [CheckpointControl.can_inject_barrier]
  constructor
  · intro hg
    rw [Bool.and_eq_true] at hg
    rcases hg with ⟨h1, h2⟩
    refine ⟨of_decide_eq_true h1, ?_⟩
    have h2b : ((s.cc.command_ctx_queue.getLast?.map
        (fun x => x.command_ctx.command.should_pause_inject_barrier)).getD false)
        = false := by
      cases hb : (s.cc.command_ctx_queue.getLast?.map
          (fun x => x.command_ctx.command.should_pause_inject_barrier)).getD false
      · rfl
      · rw [hb] at h2; cases h2
    have hplast : (pauseList s.cc).getLast?.getD false = false := by
      rw [pauseList, List.getLast?_map]
      exact h2b
    have hall := pauseOnlyLast_all _ hi.2.2.2.2.2.1 hplast
    intro n hn
    exact hall _ (List.mem_map_of_mem _ hn)
  · rintro ⟨h1, h2⟩
    rw [Bool.and_eq_true]
    refine ⟨decide_eq_true h1, ?_⟩
    cases hq : s.cc.command_ctx_queue.getLast? with
    | none => rfl
    | some nlast =>
        have hopt : nlast ∈ s.cc.command_ctx_queue.getLast? := by rw [hq]; rfl
        rcases List.mem_getLast?_eq_getLast hopt with ⟨hne, heq⟩
        have hmem : nlast ∈ s.cc.command_ctx_queue := by
          rw [heq]
          exact List.getLast_mem hne
        show (!(some (nlast.command_ctx.command.should_pause_inject_barrier)).getD false)
          = true
        rw [h2 nlast hmem]
        rfl

/-- C5 witness: the theorem at the initial reachable state with bound 1. -/
theorem claim_C5_witness :
    (initSysState 3 5).cc.inFlightCount ≤ 1
    ∧ ((initSysState 3 5).cc.can_inject_barrier 1 = true ↔
        ((initSysState 3 5).cc.inFlightCount < 1 ∧
          ∀ n ∈ (initSysState 3 5).cc.command_ctx_queue,
            n.command_ctx.command.should_pause_inject_barrier = false)) :=
  claim_C5 1 (initSysState 3 5) (Reachable.init 3 5)

/- ================= C7 infrastructure ================= -/

def unionList (l : List (Finset Nat)) : Finset Nat :=
  l.foldr (fun a b => a ∪ b) ∅

theorem unionList_nil : unionList [] = ∅ := rfl

theorem unionList_cons (a : Finset Nat) (l : List (Finset Nat)) :
    unionList (a :: l) = a ∪ unionList l := rfl

theorem disjoint_unionList (P : Finset Nat) (l : List (Finset Nat))
    (h : ∀ S ∈ l, Disjoint P S) : Disjoint P (unionList l) := by
  induction l with
  | nil => rw [unionList_nil]; exact Finset.disjoint_empty_right _
  | cons a t ih =>
      rw [unionList_cons, Finset.disjoint_union_right]
      exact ⟨h a (List.mem_cons_self a t), ih (fun S hS => h S (List.mem_cons_of_mem a hS))⟩

theorem union_sdiff_part (base P U : Finset Nat) (h1 : Disjoint P base)
    (h2 : Disjoint P U) : (base ∪ (P ∪ U)) \ P = base ∪ U := by
  rw [Finset.union_sdiff_distrib, Finset.union_sdiff_distrib]
  rw [Finset.sdiff_eq_self_of_disjoint h1.symm,
    Finset.sdiff_eq_self_of_disjoint h2.symm, Finset.sdiff_self]
  rw [Finset.empty_union]

/-- One category of the adjustment sets grows from `base` to `next` by the pairwise
disjoint `parts`, all disjoint from `base`. -/
def GrowsTo (base next : Finset Nat) (parts : List (Finset Nat)) : Prop :=
  next = base ∪ unionList parts
  ∧ List.Pairwise Disjoint parts
  ∧ ∀ S ∈ parts, Disjoint S base

/-- Rolling back a list of commands, front first (the changes-removal loop of
`fail`, abstracted over the commands of the drained nodes). -/
def removeCmdsChanges (cc : CheckpointControl) : List Command → Option CheckpointControl
  | [] => some cc
  | c :: rest =>
      (cc.remove_changes c.changes).bind (fun cc2 => removeCmdsChanges cc2 rest)

theorem removeChangesAll_eq_cmds :
    ∀ (nodes : List EpochNode) (cc : CheckpointControl),
      removeChangesAll cc nodes =
        removeCmdsChanges cc (nodes.map (fun n => n.command_ctx.command)) := by
  intro nodes
  induction nodes with
  | nil => intro cc; rfl
  | cons node rest ih =>
      intro cc
      rw [removeChangesAll, List.map_cons, removeCmdsChanges]
      cases hrm : cc.remove_changes node.command_ctx.command.changes with
      | none => rfl
      | some cc1 =>
          rw [Option.some_bind, Option.some_bind]
          exact ih cc1

/-- `runInjectStep` does not touch the four adjustment sets. -/
theorem runInjectStep_sets (st : BarrierManagerState) (cc : CheckpointControl)
    (cmd : Command) (nfs : List Notifier) :
    setsOf (runInjectStep st cc cmd nfs).cc = setsOf cc := by
  have h1 : ∀ d : CheckpointControl, setsOf d.try_get_checkpoint.2 = setsOf d := by
    intro d
    rw [CheckpointControl.try_get_checkpoint]
    split <;> rfl
  have h2 : setsOf (if !cmd.plain then cc.inject_checkpoint_in_next_barrier else cc)
      = setsOf cc := by
    by_cases h : (!cmd.plain) = true
    · rw [if_pos h]; rfl
    · rw [if_neg h]
  calc setsOf (runInjectStep st cc cmd nfs).cc
      = setsOf ((if !cmd.plain then cc.inject_checkpoint_in_next_barrier
          else cc).try_get_checkpoint).2 := rfl
    _ = setsOf (if !cmd.plain then cc.inject_checkpoint_in_next_barrier else cc) :=
        h1 _
    _ = setsOf cc := h2

/-- The sets after one full command attempt: each category grows by exactly the
command's contribution, which is disjoint from the previous contents. -/
theorem attemptCommand_sets (st : BarrierManagerState) (cc : CheckpointControl)
    (c : Command) (nfs : List Notifier) (st1 : BarrierManagerState)
    (cc1 : CheckpointControl) (h : attemptCommand st cc c nfs = some (st1, cc1)) :
    cc1.creating_tables = cc.creating_tables ∪ createdOf c
    ∧ cc1.dropping_tables = cc.dropping_tables ∪ droppedOf c
    ∧ cc1.adding_actors = cc.adding_actors ∪ addedOf c
    ∧ cc1.removing_actors = cc.removing_actors ∪ removedOf c
    ∧ Disjoint (createdOf c) cc.creating_tables
    ∧ Disjoint (droppedOf c) cc.dropping_tables
    ∧ Disjoint (addedOf c) cc.adding_actors
    ∧ Disjoint (removedOf c) cc.removing_actors := by
  rw [attemptCommand] at h
  cases hpre : cc.pre_resolve c with
  | none => rw [hpre] at h; cases h
  | some ccp =>
      rw [hpre, Option.some_bind] at h
      cases hpost : ccp.post_resolve c with
      | none => rw [hpost] at h; cases h
      | some ccq =>
          rw [hpost, Option.map_some', Option.some.injEq] at h
          have hcc1 : (runInjectStep st ccq c nfs).cc = cc1 := congrArg Prod.snd h
          have hsets : setsOf cc1 = setsOf ccq := by
            rw [← hcc1]
            exact runInjectStep_sets st ccq c nfs
          have e1 : cc1.creating_tables = ccq.creating_tables :=
            congrArg (fun p => p.1) hsets
          have e2 : cc1.dropping_tables = ccq.dropping_tables :=
            congrArg (fun p => p.2.1) hsets
          have e3 : cc1.adding_actors = ccq.adding_actors :=
            congrArg (fun p => p.2.2.1) hsets
          have e4 : cc1.removing_actors = ccq.removing_actors :=
            congrArg (fun p => p.2.2.2) hsets
          cases hch : c.changes with
          | CreateTable t =>
              rcases pre_resolve_create cc ccp c t hch hpre with ⟨hd, hcr, hccp⟩
              rw [post_resolve_other ccp c (Or.inl ⟨t, hch⟩), Option.some.injEq] at hpost
              subst hpost
              subst hccp
              rw [e1, e2, e3, e4]
              refine ⟨?_, by simp [droppedOf, hch], by simp [addedOf, hch],
                by simp [removedOf, hch], ?_, by simp [droppedOf, hch],
                by simp [addedOf, hch], by simp [removedOf, hch]⟩
              · show insert t cc.creating_tables = cc.creating_tables ∪ createdOf c
                rw [createdOf, hch, Finset.insert_eq, Finset.union_comm]
              · rw [createdOf, hch]
                exact Finset.disjoint_singleton_left.mpr hcr
          | DropTable t =>
              rw [pre_resolve_other cc c (Or.inl ⟨t, hch⟩), Option.some.injEq] at hpre
              subst hpre
              rcases post_resolve_drop cc ccq c t hch hpost with ⟨hcr, hdr, hccq⟩
              subst hccq
              rw [e1, e2, e3, e4]
              refine ⟨by simp [createdOf, hch], ?_, by simp [addedOf, hch],
                by simp [removedOf, hch], by simp [createdOf, hch], ?_,
                by simp [addedOf, hch], by simp [removedOf, hch]⟩
              · show insert t cc.dropping_tables = cc.dropping_tables ∪ droppedOf c
                rw [droppedOf, hch, Finset.insert_eq, Finset.union_comm]
              · rw [droppedOf, hch]
                exact Finset.disjoint_singleton_left.mpr hdr
          | Actor to_add to_remove =>
              rcases pre_resolve_actor cc ccp c to_add to_remove hch hpre with ⟨hda, hccp⟩
              subst hccp
              rcases post_resolve_actor _ ccq c to_add to_remove hch hpost with ⟨hdr, hccq⟩
              subst hccq
              rw [e1, e2, e3, e4]
              refine ⟨by simp [createdOf, hch], by simp [droppedOf, hch], ?_, ?_,
                by simp [createdOf, hch], by simp [droppedOf, hch], ?_, ?_⟩
              · show cc.adding_actors ∪ to_add = cc.adding_actors ∪ addedOf c
                rw [addedOf, hch]
              · show cc.removing_actors ∪ to_remove = cc.removing_actors ∪ removedOf c
                rw [removedOf, hch]
              · rw [addedOf, hch]
                exact hda.symm
              · rw [removedOf, hch]
                exact hdr.symm
          | None =>
              rw [pre_resolve_other cc c (Or.inr hch), Option.some.injEq] at hpre
              subst hpre
              rw [post_resolve_other cc c (Or.inr hch), Option.some.injEq] at hpost
              subst hpost
              rw [e1, e2, e3, e4]
              refine ⟨by simp [createdOf, hch], by simp [droppedOf, hch],
                by simp [addedOf, hch], by simp [removedOf, hch],
                by simp [createdOf, hch], by simp [droppedOf, hch],
                by simp [addedOf, hch], by simp [removedOf, hch]⟩

theorem growsTo_step (base next final P : Finset Nat) (parts : List (Finset Nat))
    (h1 : next = base ∪ P) (hd : Disjoint P base)
    (g : GrowsTo next final parts) : GrowsTo base final (P :: parts) := by
  obtain ⟨ge, gp, gd⟩ := g
  refine ⟨?_, ?_, ?_⟩
  · rw [ge, h1, unionList_cons, Finset.union_assoc]
  · refine List.Pairwise.cons ?_ gp
    intro S hS
    have hds := gd S hS
    rw [h1, Finset.disjoint_union_right] at hds
    exact (hds.2).symm
  · intro S hS
    rcases List.mem_cons.mp hS with rfl | hS
    · exact hd
    · have hds := gd S hS
      rw [h1, Finset.disjoint_union_right] at hds
      exact hds.1

/-- The four adjustment sets after attempting a batch of commands from any state:
each category grows by the pairwise-disjoint per-command contributions. -/
theorem attemptAll_grows :
    ∀ (cmds : List (Command × List Notifier)) (st : BarrierManagerState)
      (cc : CheckpointControl) (st2 : BarrierManagerState) (cc2 : CheckpointControl),
      attemptAll st cc cmds = some (st2, cc2) →
      GrowsTo cc.creating_tables cc2.creating_tables
        (cmds.map (fun p => createdOf p.1))
      ∧ GrowsTo cc.dropping_tables cc2.dropping_tables
        (cmds.map (fun p => droppedOf p.1))
      ∧ GrowsTo cc.adding_actors cc2.adding_actors
        (cmds.map (fun p => addedOf p.1))
      ∧ GrowsTo cc.removing_actors cc2.removing_actors
        (cmds.map (fun p => removedOf p.1)) := by
  intro cmds
  induction cmds with
  | nil =>
      intro st cc st2 cc2 h
      cases h
      have hbase : ∀ b : Finset Nat, GrowsTo b b [] := by
        intro b
        refine ⟨by rw [unionList_nil, Finset.union_empty], List.Pairwise.nil, ?_⟩
        intro S hS; cases hS
      exact ⟨hbase _, hbase _, hbase _, hbase _⟩
  | cons p rest ih =>
      intro st cc st2 cc2 h
      rcases p with ⟨c, nfs⟩
      rw [attemptAll] at h
      cases hac : attemptCommand st cc c nfs with
      | none => rw [hac] at h; cases h
      | some q =>
          rw [hac, Option.some_bind] at h
          rcases q with ⟨st1, cc1⟩
          obtain ⟨hA, hB, hC, hD, dA, dB, dC, dD⟩ :=
            attemptCommand_sets st cc c nfs st1 cc1 hac
          obtain ⟨gA, gB, gC, gD⟩ := ih st1 cc1 st2 cc2 h
          exact ⟨growsTo_step _ _ _ _ _ hA dA gA, growsTo_step _ _ _ _ _ hB dB gB,
            growsTo_step _ _ _ _ _ hC dC gC, growsTo_step _ _ _ _ _ hD dD gD⟩

theorem attemptCommand_queue (st : BarrierManagerState) (cc : CheckpointControl)
    (c : Command) (nfs : List Notifier) (st1 : BarrierManagerState)
    (cc1 : CheckpointControl) (h : attemptCommand st cc c nfs = some (st1, cc1)) :
    cc1.command_ctx_queue.map (fun n => n.command_ctx.command)
      = cc.command_ctx_queue.map (fun n => n.command_ctx.command) ++ [c] := by
  rw [attemptCommand] at h
  cases hpre : cc.pre_resolve c with
  | none => rw [hpre] at h; cases h
  | some ccp =>
      rw [hpre, Option.some_bind] at h
      cases hpost : ccp.post_resolve c with
      | none => rw [hpost] at h; cases h
      | some ccq =>
          rw [hpost, Option.map_some', Option.some.injEq] at h
          have hcc1 : (runInjectStep st ccq c nfs).cc = cc1 := congrArg Prod.snd h
          obtain ⟨node, hq, _, _, hncmd, _⟩ := runInjectStep_queue st ccq c nfs
          rw [← hcc1, hq, List.map_append]
          rw [post_resolve_queue _ _ _ hpost, pre_resolve_queue _ _ _ hpre]
          rw [show ([node] : List EpochNode).map (fun n => n.command_ctx.command)
            = [node.command_ctx.command] from rfl, hncmd]

theorem attemptAll_queue :
    ∀ (cmds : List (Command × List Notifier)) (st : BarrierManagerState)
      (cc : CheckpointControl) (st2 : BarrierManagerState) (cc2 : CheckpointControl),
      attemptAll st cc cmds = some (st2, cc2) →
      cc2.command_ctx_queue.map (fun n => n.command_ctx.command)
        = cc.command_ctx_queue.map (fun n => n.command_ctx.command)
          ++ cmds.map Prod.fst := by
  intro cmds
  induction cmds with
  | nil =>
      intro st cc st2 cc2 h
      cases h
      rw [List.map_nil, List.append_nil]
  | cons p rest ih =>
      intro st cc st2 cc2 h
      rcases p with ⟨c, nfs⟩
      rw [attemptAll] at h
      cases hac : attemptCommand st cc c nfs with
      | none => rw [hac] at h; cases h
      | some q =>
          rw [hac, Option.some_bind] at h
          rcases q with ⟨st1, cc1⟩
          rw [ih st1 cc1 st2 cc2 h, attemptCommand_queue st cc c nfs st1 cc1 hac]
          rw [List.append_assoc]
          rfl

theorem growsTo_cons_empty (b next : Finset Nat) (rest : List (Finset Nat))
    (g : GrowsTo b next (∅ :: rest)) : GrowsTo b next rest := by
  obtain ⟨ge, gp, gd⟩ := g
  rw [unionList_cons, Finset.empty_union] at ge
  exact ⟨ge, (List.pairwise_cons.mp gp).2,
    fun S hS => gd S (List.mem_cons_of_mem _ hS)⟩

theorem growsTo_cons_remove (b next P : Finset Nat) (rest : List (Finset Nat))
    (g : GrowsTo b next (P :: rest)) :
    P ⊆ next ∧ GrowsTo b (next \ P) rest := by
  obtain ⟨ge, gp, gd⟩ := g
  have hPb : Disjoint P b := gd P (List.mem_cons_self _ _)
  have hPU : Disjoint P (unionList rest) :=
    disjoint_unionList P rest (List.pairwise_cons.mp gp).1
  constructor
  · rw [ge, unionList_cons]
    intro x hx
    exact Finset.mem_union_right _ (Finset.mem_union_left _ hx)
  · refine ⟨?_, (List.pairwise_cons.mp gp).2,
      fun S hS => gd S (List.mem_cons_of_mem _ hS)⟩
    rw [ge, unionList_cons, union_sdiff_part b P (unionList rest) hPb hPU]

/-- Rolling back, front to back, a list of commands whose contributions grew the
four sets succeeds and restores exactly the base sets. -/
theorem removeCmds_rollback :
    ∀ (cmds : List Command) (X : CheckpointControl) (bC bD bA bR : Finset Nat),
      GrowsTo bC X.creating_tables (cmds.map createdOf) →
      GrowsTo bD X.dropping_tables (cmds.map droppedOf) →
      GrowsTo bA X.adding_actors (cmds.map addedOf) →
      GrowsTo bR X.removing_actors (cmds.map removedOf) →
      ∃ Y, removeCmdsChanges X cmds = some Y
        ∧ Y.creating_tables = bC ∧ Y.dropping_tables = bD
        ∧ Y.adding_actors = bA ∧ Y.removing_actors = bR := by
  intro cmds
  induction cmds with
  | nil =>
      intro X bC bD bA bR gC gD gA gR
      have hfin : ∀ (b n : Finset Nat), GrowsTo b n [] → n = b := by
        intro b n g
        rw [g.1, unionList_nil, Finset.union_empty]
      exact ⟨X, rfl, hfin _ _ gC, hfin _ _ gD, hfin _ _ gA, hfin _ _ gR⟩
  | cons c rest ih =>
      intro X bC bD bA bR gC gD gA gR
      rw [List.map_cons] at gC gD gA gR
      cases hch : c.changes with
      | CreateTable t =>
          rw [show createdOf c = {t} by rw [createdOf, hch]] at gC
          rw [show droppedOf c = ∅ by rw [droppedOf, hch]] at gD
          rw [show addedOf c = ∅ by rw [addedOf, hch]] at gA
          rw [show removedOf c = ∅ by rw [removedOf, hch]] at gR
          obtain ⟨hsub, gC2⟩ := growsTo_cons_remove _ _ _ _ gC
          have hmem : t ∈ X.creating_tables :=
            Finset.singleton_subset_iff.mp hsub
          have hrm : X.remove_changes c.changes =
              some { X with creating_tables := X.creating_tables.erase t } := by
            simp only [CheckpointControl.remove_changes, hch]
            rw [if_pos hmem]
          obtain ⟨Y, hY, y1, y2, y3, y4⟩ :=
            ih { X with creating_tables := X.creating_tables.erase t } bC bD bA bR
              (by
                show GrowsTo bC (X.creating_tables.erase t) _
                rw [Finset.erase_eq]
                exact gC2)
              (growsTo_cons_empty _ _ _ gD)
              (growsTo_cons_empty _ _ _ gA)
              (growsTo_cons_empty _ _ _ gR)
          refine ⟨Y, ?_, y1, y2, y3, y4⟩
          rw [removeCmdsChanges, hrm, Option.some_bind]
          exact hY
      | DropTable t =>
          rw [show createdOf c = ∅ by rw [createdOf, hch]] at gC
          rw [show droppedOf c = {t} by rw [droppedOf, hch]] at gD
          rw [show addedOf c = ∅ by rw [addedOf, hch]] at gA
          rw [show removedOf c = ∅ by rw [removedOf, hch]] at gR
          obtain ⟨hsub, gD2⟩ := growsTo_cons_remove _ _ _ _ gD
          have hmem : t ∈ X.dropping_tables :=
            Finset.singleton_subset_iff.mp hsub
          have hrm : X.remove_changes c.changes =
              some { X with dropping_tables := X.dropping_tables.erase t } := by
            simp only [CheckpointControl.remove_changes, hch]
            rw [if_pos hmem]
          obtain ⟨Y, hY, y1, y2, y3, y4⟩ :=
            ih { X with dropping_tables := X.dropping_tables.erase t } bC bD bA bR
              (growsTo_cons_empty _ _ _ gC)
              (by
                show GrowsTo bD (X.dropping_tables.erase t) _
                rw [Finset.erase_eq]
                exact gD2)
              (growsTo_cons_empty _ _ _ gA)
              (growsTo_cons_empty _ _ _ gR)
          refine ⟨Y, ?_, y1, y2, y3, y4⟩
          rw [removeCmdsChanges, hrm, Option.some_bind]
          exact hY
      | Actor to_add to_remove =>
          rw [show createdOf c = ∅ by rw [createdOf, hch]] at gC
          rw [show droppedOf c = ∅ by rw [droppedOf, hch]] at gD
          rw [show addedOf c = to_add by rw [addedOf, hch]] at gA
          rw [show removedOf c = to_remove by rw [removedOf, hch]] at gR
          obtain ⟨hsubA, gA2⟩ := growsTo_cons_remove _ _ _ _ gA
          obtain ⟨hsubR, gR2⟩ := growsTo_cons_remove _ _ _ _ gR
          have hrm : X.remove_changes c.changes =
              some { X with
                adding_actors := X.adding_actors \ to_add
                removing_actors := X.removing_actors \ to_remove } := by
            simp only [CheckpointControl.remove_changes, hch]
            rw [if_pos ⟨hsubA, hsubR⟩]
          obtain ⟨Y, hY, y1, y2, y3, y4⟩ :=
            ih { X with
                adding_actors := X.adding_actors \ to_add
                removing_actors := X.removing_actors \ to_remove } bC bD bA bR
              (growsTo_cons_empty _ _ _ gC)
              (growsTo_cons_empty _ _ _ gD)
              gA2 gR2
          refine ⟨Y, ?_, y1, y2, y3, y4⟩
          rw [removeCmdsChanges, hrm, Option.some_bind]
          exact hY
      | None =>
          rw [show createdOf c = ∅ by rw [createdOf, hch]] at gC
          rw [show droppedOf c = ∅ by rw [droppedOf, hch]] at gD
          rw [show addedOf c = ∅ by rw [addedOf, hch]] at gA
          rw [show removedOf c = ∅ by rw [removedOf, hch]] at gR
          have hrm : X.remove_changes c.changes = some X := by
            simp only [CheckpointControl.remove_changes, hch]
          obtain ⟨Y, hY, y1, y2, y3, y4⟩ :=
            ih X bC bD bA bR
              (growsTo_cons_empty _ _ _ gC)
              (growsTo_cons_empty _ _ _ gD)
              (growsTo_cons_empty _ _ _ gA)
              (growsTo_cons_empty _ _ _ gR)
          refine ⟨Y, ?_, y1, y2, y3, y4⟩
          rw [removeCmdsChanges, hrm, Option.some_bind]
          exact hY

/-- `pre_resolve` reads and writes only the four adjustment sets. -/
theorem pre_resolve_sets_congr (ccA ccB : CheckpointControl)
    (hset : setsOf ccA = setsOf ccB) (c : Command) :
    (ccA.pre_resolve c).map setsOf = (ccB.pre_resolve c).map setsOf := by
  have h1 : ccA.creating_tables = ccB.creating_tables :=
    congrArg (fun p => p.1) hset
  have h2 : ccA.dropping_tables = ccB.dropping_tables :=
    congrArg (fun p => p.2.1) hset
  have h3 : ccA.adding_actors = ccB.adding_actors :=
    congrArg (fun p => p.2.2.1) hset
  have h4 : ccA.removing_actors = ccB.removing_actors :=
    congrArg (fun p => p.2.2.2) hset
  cases hch : c.changes with
  | CreateTable t =>
      simp only [CheckpointControl.pre_resolve, hch, h1, h2]
      by_cases ha : t ∈ ccB.dropping_tables
      · rw [if_pos ha, if_pos ha]
      · rw [if_neg ha, if_neg ha]
        by_cases hb : t ∈ ccB.creating_tables
        · rw [if_pos hb, if_pos hb]
        · rw [if_neg hb, if_neg hb]
          simp [setsOf, h2, h3, h4]
  | Actor to_add to_remove =>
      simp only [CheckpointControl.pre_resolve, hch, h3]
      by_cases ha : Disjoint ccB.adding_actors to_add
      · rw [if_pos ha, if_pos ha]
        simp [setsOf, h1, h2, h4]
      · rw [if_neg ha, if_neg ha]
  | DropTable t =>
      simp only [CheckpointControl.pre_resolve, hch, Option.map_some']
      rw [hset]
  | None =>
      simp only [CheckpointControl.pre_resolve, hch, Option.map_some']
      rw [hset]

/-- `post_resolve` reads and writes only the four adjustment sets. -/
theorem post_resolve_sets_congr (ccA ccB : CheckpointControl)
    (hset : setsOf ccA = setsOf ccB) (c : Command) :
    (ccA.post_resolve c).map setsOf = (ccB.post_resolve c).map setsOf := by
  have h1 : ccA.creating_tables = ccB.creating_tables :=
    congrArg (fun p => p.1) hset
  have h2 : ccA.dropping_tables = ccB.dropping_tables :=
    congrArg (fun p => p.2.1) hset
  have h3 : ccA.adding_actors = ccB.adding_actors :=
    congrArg (fun p => p.2.2.1) hset
  have h4 : ccA.removing_actors = ccB.removing_actors :=
    congrArg (fun p => p.2.2.2) hset
  cases hch : c.changes with
  | DropTable t =>
      simp only [CheckpointControl.post_resolve, hch, h1, h2]
      by_cases ha : t ∈ ccB.creating_tables
      · rw [if_pos ha, if_pos ha]
      · rw [if_neg ha, if_neg ha]
        by_cases hb : t ∈ ccB.dropping_tables
        · rw [if_pos hb, if_pos hb]
        · rw [if_neg hb, if_neg hb]
          simp [setsOf, h1, h3, h4]
  | Actor to_add to_remove =>
      simp only [CheckpointControl.post_resolve, hch, h4]
      by_cases ha : Disjoint ccB.removing_actors to_remove
      · rw [if_pos ha, if_pos ha]
        simp [setsOf, h1, h2, h3]
      · rw [if_neg ha, if_neg ha]
  | CreateTable t =>
      simp only [CheckpointControl.post_resolve, hch, Option.map_some']
      rw [hset]
  | None =>
      simp only [CheckpointControl.post_resolve, hch, Option.map_some']
      rw [hset]

/- ================= C7 ================= -/

/-- C7: starting from an empty queue, after successfully resolving and injecting a
batch of commands, `fail()` drains exactly the queued nodes (those commands, in
order) and rolls their `Changes` back out of
`creating_tables` / `dropping_tables` / `adding_actors` / `removing_actors`, leaving
the four sets exactly as they were before the batch — and re-running any command
from scratch then resolves exactly as a first attempt would. -/
theorem claim_C7 (st : BarrierManagerState) (cc : CheckpointControl)
    (cmds : List (Command × List Notifier)) (st2 : BarrierManagerState)
    (cc2 : CheckpointControl)
    (h0 : cc.command_ctx_queue = [])
    (h : attemptAll st cc cmds = some (st2, cc2)) :
    ∃ cc3 : CheckpointControl,
      cc2.fail = some (cc2.command_ctx_queue, cc3)
      ∧ cc2.command_ctx_queue.map (fun n => n.command_ctx.command) = cmds.map Prod.fst
      ∧ setsOf cc3 = setsOf cc
      ∧ (∀ c : Command,
          (cc3.pre_resolve c).map setsOf = (cc.pre_resolve c).map setsOf)
      ∧ (∀ c : Command,
          (cc3.post_resolve c).map setsOf = (cc.post_resolve c).map setsOf) := by
  obtain ⟨gA, gB, gC, gD⟩ := attemptAll_grows cmds st cc st2 cc2 h
  have hqcmds : cc2.command_ctx_queue.map (fun n => n.command_ctx.command)
      = cmds.map Prod.fst := by
    rw [attemptAll_queue cmds st cc st2 cc2 h, h0]
    rfl
  have hmm : ∀ (f : Command → Finset Nat),
      (cmds.map Prod.fst).map f = cmds.map (fun p => f p.1) := by
    intro f
    rw [List.map_map]
    rfl
  obtain ⟨Y, hY, y1, y2, y3, y4⟩ :=
    removeCmds_rollback (cmds.map Prod.fst) { cc2 with command_ctx_queue := [] }
      cc.creating_tables cc.dropping_tables cc.adding_actors cc.removing_actors
      (by rw [hmm]; exact gA) (by rw [hmm]; exact gB)
      (by rw [hmm]; exact gC) (by rw [hmm]; exact gD)
  have hsets : setsOf Y = setsOf cc := by
    rw [setsOf, setsOf, y1, y2, y3, y4]
  refine ⟨Y, ?_, hqcmds, hsets, fun c => pre_resolve_sets_congr Y cc hsets c,
    fun c => post_resolve_sets_congr Y cc hsets c⟩
  rw [CheckpointControl.fail, removeChangesAll_eq_cmds, hqcmds, hY]
  rfl

/-- The manager state and control after attempting `cmdCreate42` on a fresh
control with frequency 3 from epoch pointer 10. -/
def c7after : CheckpointControl :=
  { command_ctx_queue :=
      [{ state := BarrierEpochState.InFlight
         command_ctx :=
           { prev_epoch := 10, curr_epoch := 11, command := cmdCreate42,
             checkpoint := true }
         notifiers := [] }]
    creating_tables := insert 42 (∅ : Finset TableId)
    dropping_tables := ∅
    adding_actors := ∅
    removing_actors := ∅
    uncommitted_messages := UncommittedMessages.default
    num_distance_checkpoint := 3
    checkpoint_frequency := 3 }

/-- C7 witness: one concrete `CreateStreamingJob`-style command attempted, then the
whole theorem at that instance. -/
theorem claim_C7_witness :
    ∃ cc3 : CheckpointControl,
      c7after.fail = some (c7after.command_ctx_queue, cc3)
      ∧ c7after.command_ctx_queue.map (fun n => n.command_ctx.command)
          = ([(cmdCreate42, ([] : List Notifier))].map Prod.fst)
      ∧ setsOf cc3 = setsOf (CheckpointControl.new 3)
      ∧ (∀ c : Command, (cc3.pre_resolve c).map setsOf
          = ((CheckpointControl.new 3).pre_resolve c).map setsOf)
      ∧ (∀ c : Command, (cc3.post_resolve c).map setsOf
          = ((CheckpointControl.new 3).post_resolve c).map setsOf) :=
  claim_C7 { in_flight_prev_epoch := 10 } (CheckpointControl.new 3)
    [(cmdCreate42, [])] { in_flight_prev_epoch := 11 } c7after rfl (by decide)

end RisingWave
